import Mathlib

/-!
Shallow embedding of the Data-Center Load & Fault-Tolerance Simulation
(`request.py`, `server.py`, `load_balancer.py`, `metrics.py`,
`simulation_engine.py`) together with proofs about the embedded code.

Modelling conventions:
* Python floats are embedded as rationals (`ℚ`); all the properties
  verified here are order/arithmetic facts that do not depend on binary
  rounding.
* `float("inf")` (the default request timeout) is embedded as the `none`
  case of an `Option ℚ`; a comparison `x > inf`, which is `False` in
  Python, becomes the `none` branch of a `match`.
* Mutable Python objects become explicit state passing: every method that
  mutates its receiver returns the updated copy, and the process-global
  request-identifier counter of `ClientRequest` is threaded through
  explicitly.
* A Python expression that would raise an uncaught exception is embedded
  as the `none` of an `Option` result (or the `.error` of an `Except`):
  `ServerNode.tick` would compare the clock against a `None` completion
  time (`TypeError`), and `LoadBalancer.dispatch` raises on an empty
  server list.
-/

namespace DataCenterSim

/-- Simulation clock values, durations and response times (`float` in the
Python source). -/
abbrev Time := ℚ

/-- `ClientRequest` from `request.py`.  `timeout = none` embeds the default
`float("inf")`; the optional fields start out `None` exactly as in the
source. -/
structure ClientRequest where
  request_id : Nat
  arrival_time : Time
  service_time : Time
  timeout : Option Time
  start_service_time : Option Time
  completion_time : Option Time
deriving DecidableEq, Repr

/-- `ClientRequest.__init__`, with the class-level counter
`ClientRequest._id_counter` threaded explicitly: takes the current counter
value and returns the incremented counter together with the new request. -/
def mkClientRequest (counter : Nat) (arrival_time service_time : Time)
    (timeout : Option Time) : Nat × ClientRequest :=
  (counter + 1,
   { request_id := counter + 1
     arrival_time := arrival_time
     service_time := service_time
     timeout := timeout
     start_service_time := none
     completion_time := none })

/-- `ClientRequest.wait_time`. -/
def ClientRequest.wait_time (r : ClientRequest) : Option Time :=
  match r.start_service_time with
  | none => none
  | some st => some (st - r.arrival_time)

/-- `ClientRequest.response_time`. -/
def ClientRequest.response_time (r : ClientRequest) : Option Time :=
  match r.completion_time with
  | none => none
  | some ct => some (ct - r.arrival_time)

/-- `ClientRequest.is_timed_out`: a request in service is never timed out;
otherwise `(current_time - arrival_time) > timeout`, which is `False` when
the timeout is `float("inf")` (the `none` case). -/
def ClientRequest.is_timed_out (r : ClientRequest) (current_time : Time) : Bool :=
  match r.start_service_time with
  | some _ => false
  | none =>
    match r.timeout with
    | none => false
    | some tmo => decide (current_time - r.arrival_time > tmo)

/-- `ServerNode` from `server.py`.  `completed` is the `_completed`
book-keeping list. -/
structure ServerNode where
  server_id : Nat
  service_rate : Time
  queue : List ClientRequest
  current_request : Option ClientRequest
  completed : List ClientRequest
deriving DecidableEq, Repr

/-- `ServerNode.enqueue`: append to the tail of the FIFO queue. -/
def ServerNode.enqueue (s : ServerNode) (r : ClientRequest) : ServerNode :=
  { s with queue := s.queue ++ [r] }

/-- `ServerNode.queue_length`: waiting requests only, excludes the
in-service slot. -/
def ServerNode.queue_length (s : ServerNode) : Nat :=
  s.queue.length

/-- `ServerNode.is_busy`. -/
def ServerNode.is_busy (s : ServerNode) : Bool :=
  s.current_request.isSome

/-- Step 2 of `ServerNode.tick`: if the server is free and the queue is
non-empty, pop the head, record its start-of-service time and schedule its
completion at `current_time + service_time`. -/
def ServerNode.startNext (s : ServerNode) (current_time : Time) : ServerNode :=
  match s.current_request with
  | some _ => s
  | none =>
    match s.queue with
    | [] => s
    | next_req :: rest =>
      { s with
        queue := rest
        current_request := some
          { next_req with
            start_service_time := some current_time
            completion_time := some (current_time + next_req.service_time) } }

/-- `ServerNode.tick`.  Step 1: if the in-service request's completion time
has been reached, snap its completion time to `current_time`, emit it and
free the server.  Step 2 (`startNext`): pull the next request if free.
Returns `none` where the Python code would raise a `TypeError` by comparing
the clock against a `None` completion time. -/
def ServerNode.tick (s : ServerNode) (current_time : Time) :
    Option (ServerNode × List ClientRequest) :=
  match s.current_request with
  | none => some (s.startNext current_time, [])
  | some req =>
    match req.completion_time with
    | none => none
    | some ct =>
      if ct ≤ current_time then
        let finished := { req with completion_time := some current_time }
        some ((ServerNode.startNext
                 { s with current_request := none
                          completed := s.completed ++ [finished] } current_time),
              [finished])
      else
        some (s, [])

/-- `ServerNode.drop_timed_out`: partition the waiting queue by
`is_timed_out`, keep the rest (in order) and return the evicted requests. -/
def ServerNode.drop_timed_out (s : ServerNode) (current_time : Time) :
    ServerNode × List ClientRequest :=
  let timed_out := s.queue.filter (fun r => r.is_timed_out current_time)
  let remaining := s.queue.filter (fun r => !(r.is_timed_out current_time))
  ({ s with queue := remaining }, timed_out)

/-- Python `int(q)` on a rational value: truncation toward zero. -/
def pyInt (q : ℚ) : ℤ :=
  if 0 ≤ q then ⌊q⌋ else ⌈q⌉

/-- Python `x or y` on an optional float `x` and a float `y`: `y` exactly
when `x` is falsy, i.e. `None` or `0.0`. -/
def pyOr (x : Option Time) (y : Time) : Time :=
  match x with
  | none => y
  | some v => if v = 0 then y else v

/-- The accumulator loop behind Python `min(servers, key=...)` as used by
`LoadBalancer._least_loaded`: scan the remaining list `l` whose first
element sits at absolute position `i`, carrying the position `bi` and key
`bk` of the best element seen so far; the best is replaced only on a
strictly smaller key, so the first minimizer wins. -/
def pyMinIdxGo {α : Type} (key : α → Nat) :
    List α → Nat → Nat → Nat → Nat
  | [], _, bi, _ => bi
  | x :: xs, i, bi, bk =>
    if key x < bk then pyMinIdxGo key xs (i + 1) i (key x)
    else pyMinIdxGo key xs (i + 1) bi bk

/-- Replace the element at position `i` (no-op when out of range), as the
aliased mutation `target.enqueue(request)` acts on the dispatcher's server
list. -/
def listModify {α : Type} (f : α → α) : Nat → List α → List α
  | _, [] => []
  | 0, x :: xs => f x :: xs
  | n + 1, x :: xs => x :: listModify f n xs

/-- `LoadBalancer` from `load_balancer.py`.  `rr_index` is `_rr_index`. -/
structure LoadBalancer where
  servers : List ServerNode
  algorithm : String
  rr_index : Nat
deriving DecidableEq, Repr

/-- `LoadBalancer.ALGORITHMS`. -/
def LoadBalancer.ALGORITHMS : List String :=
  ["round_robin", "least_loaded"]

/-- `LoadBalancer.__init__`: rejects an unrecognized algorithm name with a
`ValueError` (embedded as `.error`) before anything else can happen. -/
def LoadBalancer.init (servers : List ServerNode) (algorithm : String) :
    Except String LoadBalancer :=
  if algorithm ∈ LoadBalancer.ALGORITHMS then
    .ok { servers := servers, algorithm := algorithm, rr_index := 0 }
  else
    .error "Unknown algorithm"

/-- `LoadBalancer._round_robin`: chosen position is `rr_index % len`, and
the pointer advances on every call.  Returns the updated balancer together
with the chosen position. -/
def LoadBalancer.round_robin (lb : LoadBalancer) : LoadBalancer × Nat :=
  ({ lb with rr_index := lb.rr_index + 1 }, lb.rr_index % lb.servers.length)

/-- `LoadBalancer._least_loaded`: Python `min(servers, key=queue_length)`,
which keeps the first minimizer.  Returns the chosen position; `none` on an
empty list, where Python `min` would raise. -/
def LoadBalancer.least_loaded (lb : LoadBalancer) : Option Nat :=
  match lb.servers with
  | [] => none
  | s :: rest => some (pyMinIdxGo ServerNode.queue_length rest 1 0 s.queue_length)

/-- `LoadBalancer.dispatch`: raises (`.error`) on an empty server list;
otherwise routes by the configured algorithm and enqueues the request at
the chosen server.  Returns the updated balancer and the chosen position. -/
def LoadBalancer.dispatch (lb : LoadBalancer) (req : ClientRequest) :
    Except String (LoadBalancer × Nat) :=
  if lb.servers.isEmpty then
    .error "LoadBalancer has no servers to dispatch to."
  else
    let step :=
      if lb.algorithm = "round_robin" then lb.round_robin
      else
        match lb.least_loaded with
        | some i => (lb, i)
        | none => (lb, 0)
    .ok ({ step.1 with
            servers := listModify (fun s => s.enqueue req) step.2 step.1.servers },
         step.2)

/-- Iterated dispatch: route each request of the list in turn, collecting
the chosen positions. -/
def LoadBalancer.dispatchSeq (lb : LoadBalancer) :
    List ClientRequest → Except String (LoadBalancer × List Nat)
  | [] => .ok (lb, [])
  | r :: rs =>
    match lb.dispatch r with
    | .error e => .error e
    | .ok (lb1, i) =>
      match lb1.dispatchSeq rs with
      | .error e => .error e
      | .ok (lb2, idxs) => .ok (lb2, i :: idxs)

/-- `MetricsCollector` from `metrics.py`. -/
structure MetricsCollector where
  completed_requests : Nat
  dropped_requests : Nat
  total_response_time : Time
  response_times : List Time
deriving DecidableEq, Repr

/-- `MetricsCollector.__init__`. -/
def MetricsCollector.init : MetricsCollector :=
  { completed_requests := 0
    dropped_requests := 0
    total_response_time := 0
    response_times := [] }

/-- `MetricsCollector.record_completion`: silently ignores a request whose
response time is not yet determinable. -/
def MetricsCollector.record_completion (m : MetricsCollector)
    (r : ClientRequest) : MetricsCollector :=
  match r.response_time with
  | none => m
  | some rt =>
    { m with
      completed_requests := m.completed_requests + 1
      total_response_time := m.total_response_time + rt
      response_times := m.response_times ++ [rt] }

/-- `MetricsCollector.record_drop`: increments the dropped count only. -/
def MetricsCollector.record_drop (m : MetricsCollector)
    (_r : ClientRequest) : MetricsCollector :=
  { m with dropped_requests := m.dropped_requests + 1 }

/-- `MetricsCollector.total_requests`. -/
def MetricsCollector.total_requests (m : MetricsCollector) : Nat :=
  m.completed_requests + m.dropped_requests

/-- `MetricsCollector.percentile`: `0.0` on an empty sequence, otherwise
the entry of the ascending sort at index `max(0, int(len * p / 100) - 1)`.
(For an index out of range — possible only for `p > 100` — Python would
raise `IndexError`; `getD` is only ever read in-bounds in the theorems
below.) -/
def MetricsCollector.percentile (m : MetricsCollector) (p : ℚ) : Time :=
  match m.response_times with
  | [] => 0
  | _ =>
    let sorted_rt := m.response_times.mergeSort (fun a b => decide (a ≤ b))
    let idx := (max 0 (pyInt ((sorted_rt.length : ℚ) * p / 100) - 1)).toNat
    sorted_rt.getD idx 0

/-- One recording call handed to the collector. -/
inductive MetricsEvent
  | completion (r : ClientRequest)
  | drop (r : ClientRequest)
deriving DecidableEq, Repr

/-- Apply one recording call. -/
def MetricsCollector.record (m : MetricsCollector) : MetricsEvent → MetricsCollector
  | .completion r => m.record_completion r
  | .drop r => m.record_drop r

/-- Apply a sequence of recording calls in order. -/
def MetricsCollector.recordAll (m : MetricsCollector)
    (es : List MetricsEvent) : MetricsCollector :=
  es.foldl MetricsCollector.record m

/-- `SimulationEngine` state from `simulation_engine.py`.  The Python
engine and its load balancer alias one list of mutable servers; here the
balancer owns the single copy.  `id_counter` is the process-global
`ClientRequest._id_counter`, threaded through the engine explicitly. -/
structure SimulationEngine where
  arrival_rate : Time
  service_rate : Time
  sim_duration : Time
  dt : Time
  request_timeout : Option Time
  clock : Time
  utilization : Time
  lb : LoadBalancer
  metrics : MetricsCollector
  id_counter : Nat
deriving DecidableEq, Repr

/-- `SimulationEngine.__init__` (randomness seeding aside): builds
`num_servers` servers with identifiers `0, 1, ...` in list order, the load
balancer and a fresh metrics collector, with the clock at `0`.  The
incoming process-global request counter is passed through untouched.
(`utilization` uses the rational convention `x / 0 = 0` where Python would
raise `ZeroDivisionError` for `num_servers = 0`; no claim touches it.) -/
def SimulationEngine.init (id_counter : Nat) (num_servers : Nat)
    (arrival_rate service_rate sim_duration dt : Time)
    (algorithm : String) (request_timeout : Option Time) :
    Except String SimulationEngine :=
  let servers := (List.range num_servers).map (fun i =>
    { server_id := i
      service_rate := service_rate
      queue := []
      current_request := none
      completed := [] : ServerNode })
  match LoadBalancer.init servers algorithm with
  | .error e => .error e
  | .ok lb =>
    .ok { arrival_rate := arrival_rate
          service_rate := service_rate
          sim_duration := sim_duration
          dt := dt
          request_timeout := request_timeout
          clock := 0
          utilization := arrival_rate / (num_servers * service_rate)
          lb := lb
          metrics := MetricsCollector.init
          id_counter := id_counter }

/-- Phase 1 of a tick of `SimulationEngine.run`: one request per sampled
service time in `services` is created at the current clock with the
engine's timeout and dispatched.  `none` embeds an uncaught dispatch
exception. -/
def SimulationEngine.makeArrivals (e : SimulationEngine) :
    List Time → Option SimulationEngine
  | [] => some e
  | st :: rest =>
    let created := mkClientRequest e.id_counter e.clock st e.request_timeout
    match e.lb.dispatch created.2 with
    | .error _ => none
    | .ok (lb1, _) =>
      SimulationEngine.makeArrivals
        { e with id_counter := created.1, lb := lb1 } rest

/-- Phase 2 of a tick: evict timed-out requests from every server's queue
and record each eviction as a drop. -/
def dropPhase (t : Time) (m : MetricsCollector) :
    List ServerNode → List ServerNode × MetricsCollector
  | [] => ([], m)
  | s :: rest =>
    let out := s.drop_timed_out t
    let m1 := out.2.foldl MetricsCollector.record_drop m
    let tail := dropPhase t m1 rest
    (out.1 :: tail.1, tail.2)

/-- Phase 3 of a tick: advance every server and record its completions.
Also returns the list of requests handed to `record_completion` (the
completion log). -/
def tickPhase (t : Time) (m : MetricsCollector) :
    List ServerNode → Option (List ServerNode × MetricsCollector × List ClientRequest)
  | [] => some ([], m, [])
  | s :: rest =>
    match s.tick t with
    | none => none
    | some (s1, done) =>
      let m1 := done.foldl MetricsCollector.record_completion m
      match tickPhase t m1 rest with
      | none => none
      | some (rest1, m2, log) => some (s1 :: rest1, m2, done ++ log)

/-- One iteration of the main loop of `SimulationEngine.run`: advance the
clock by `dt`, create and dispatch the tick's arrivals, evict timed-out
requests, then tick every server.  Returns the new state and the requests
recorded as completed during this tick. -/
def SimulationEngine.stepTick (e : SimulationEngine) (services : List Time) :
    Option (SimulationEngine × List ClientRequest) :=
  let e0 := { e with clock := e.clock + e.dt }
  match e0.makeArrivals services with
  | none => none
  | some e1 =>
    let dp := dropPhase e1.clock e1.metrics e1.lb.servers
    let e2 := { e1 with lb := { e1.lb with servers := dp.1 }, metrics := dp.2 }
    match tickPhase e2.clock e2.metrics e2.lb.servers with
    | none => none
    | some (servers2, m2, log) =>
      some ({ e2 with lb := { e2.lb with servers := servers2 }, metrics := m2 }, log)

/-- `SimulationEngine._drain_remaining`, per server list: a busy server's
in-service request gets `completion_time = completion_time or clock`
(Python `or`: the clock substitutes only for a falsy — `None` or `0.0` —
stored value), is recorded as completed, and the server is freed.  Returns
the updated servers, metrics and the requests handed to
`record_completion`. -/
def drainServers (clock : Time) (m : MetricsCollector) :
    List ServerNode → List ServerNode × MetricsCollector × List ClientRequest
  | [] => ([], m, [])
  | s :: rest =>
    match s.current_request with
    | none =>
      let tail := drainServers clock m rest
      (s :: tail.1, tail.2.1, tail.2.2)
    | some req =>
      let fin := { req with completion_time := some (pyOr req.completion_time clock) }
      let tail := drainServers clock (m.record_completion fin) rest
      ({ s with current_request := none } :: tail.1, tail.2.1, fin :: tail.2.2)

/-- `SimulationEngine._drain_remaining`. -/
def SimulationEngine.drain_remaining (e : SimulationEngine) :
    SimulationEngine × List ClientRequest :=
  let out := drainServers e.clock e.metrics e.lb.servers
  ({ e with lb := { e.lb with servers := out.1 }, metrics := out.2.1 }, out.2.2)

/-- The main loop of `SimulationEngine.run`, derandomized: the `k`-th entry
of `schedule` holds the service times sampled for the arrivals of tick `k`
(the loop runs `num_ticks = int(sim_duration / dt)` times in Python, so a
faithful schedule has that many entries). -/
def SimulationEngine.runTicks (e : SimulationEngine) :
    List (List Time) → Option (SimulationEngine × List ClientRequest)
  | [] => some (e, [])
  | sv :: rest =>
    match e.stepTick sv with
    | none => none
    | some (e1, log1) =>
      match e1.runTicks rest with
      | none => none
      | some (e2, log2) => some (e2, log1 ++ log2)

/-- `SimulationEngine.run` (derandomized as in `runTicks`): the main loop
followed by the drain step.  Returns the final state together with the
full completion log — every request handed to `record_completion`, drain
included. -/
def SimulationEngine.run (e : SimulationEngine) (schedule : List (List Time)) :
    Option (SimulationEngine × List ClientRequest) :=
  match e.runTicks schedule with
  | none => none
  | some (e1, log1) =>
    let out := e1.drain_remaining
    some (out.1, log1 ++ out.2)

/-- The spec's timeout predicate: the request has not yet started service
and its elapsed wait `(clock − arrival)` strictly exceeds its (finite)
timeout. -/
def TimedOutSpec (r : ClientRequest) (t : Time) : Prop :=
  r.start_service_time = none ∧
    ∃ tmo, r.timeout = some tmo ∧ t - r.arrival_time > tmo

/-- A sequence of `ClientRequest.__init__` calls in one process, threading
the class-level counter: returns the final counter and the created
requests in creation order. -/
def createRequests (counter : Nat) :
    List (Time × Time × Option Time) → Nat × List ClientRequest
  | [] => (counter, [])
  | a :: rest =>
    let c := mkClientRequest counter a.1 a.2.1 a.2.2
    let tail := createRequests c.1 rest
    (tail.1, c.2 :: tail.2)

/-- Number of arrivals over a whole derandomized schedule. -/
def totalArrivals (schedule : List (List Time)) : Nat :=
  (schedule.map List.length).sum

/-- Invariant of a request waiting in some queue at clock `c`. -/
def WaitingOK (c : Time) (r : ClientRequest) : Prop :=
  r.start_service_time = none ∧ r.completion_time = none
    ∧ 0 ≤ r.arrival_time ∧ r.arrival_time ≤ c ∧ 0 ≤ r.service_time

/-- Invariant of a request in service at clock `c`: its completion is
scheduled at exactly `start + service`. -/
def InServiceOK (c : Time) (r : ClientRequest) : Prop :=
  ∃ st, r.start_service_time = some st
    ∧ r.completion_time = some (st + r.service_time)
    ∧ 0 ≤ r.arrival_time ∧ r.arrival_time ≤ st ∧ st ≤ c ∧ 0 ≤ r.service_time

/-- Invariant of a server at clock `c`. -/
def ServerOK (c : Time) (s : ServerNode) : Prop :=
  (∀ r ∈ s.queue, WaitingOK c r) ∧ (∀ r ∈ s.current_request, InServiceOK c r)

/-- Invariant of the engine state. -/
def EngineOK (e : SimulationEngine) : Prop :=
  0 ≤ e.clock ∧ ∀ s ∈ e.lb.servers, ServerOK e.clock s

/-- What holds of every request recorded as completed. -/
def CompletedOK (r : ClientRequest) : Prop :=
  ∃ st ct, r.start_service_time = some st ∧ r.completion_time = some ct
    ∧ 0 ≤ r.service_time ∧ r.arrival_time ≤ st ∧ st + r.service_time ≤ ct

section Fixtures

/-- Fixture: a fresh waiting request. -/
def reqW : ClientRequest :=
  { request_id := 1, arrival_time := 0, service_time := 2, timeout := none
    start_service_time := none, completion_time := none }

/-- Fixture: a second fresh request. -/
def reqW2 : ClientRequest :=
  { request_id := 2, arrival_time := 0, service_time := 1, timeout := some 3
    start_service_time := none, completion_time := none }

/-- Fixture: a request in service, started at 1, scheduled to finish at 3. -/
def reqInSvc : ClientRequest :=
  { request_id := 1, arrival_time := 0, service_time := 2, timeout := none
    start_service_time := some 1, completion_time := some 3 }

/-- Fixture: an idle server with one waiting request. -/
def srvIdleQ : ServerNode :=
  { server_id := 0, service_rate := 1, queue := [reqW]
    current_request := none, completed := [] }

/-- Fixture: a busy server (due request) with an empty queue. -/
def srvBusyDue : ServerNode :=
  { server_id := 0, service_rate := 1, queue := []
    current_request := some reqInSvc, completed := [] }

/-- Fixture: an idle server with an old and a recent waiting request. -/
def srvTimeoutQ : ServerNode :=
  { server_id := 1, service_rate := 1
    queue := [reqW2, { reqW2 with request_id := 3, arrival_time := 9 }]
    current_request := none, completed := [] }

/-- Fixture: an idle empty server with identifier `i`. -/
def mkIdleSrv (i : Nat) : ServerNode :=
  { server_id := i, service_rate := 1, queue := []
    current_request := none, completed := [] }

/-- Fixture: a round-robin balancer over two servers whose pointer is
mid-cycle (as after one dispatch from a fresh balancer). -/
def lbRR1 : LoadBalancer :=
  { servers := [mkIdleSrv 0, mkIdleSrv 1], algorithm := "round_robin"
    rr_index := 1 }

/-- Fixture: a least-loaded balancer over three servers, the first loaded. -/
def lbLL : LoadBalancer :=
  { servers := [{ mkIdleSrv 0 with queue := [reqW] }, mkIdleSrv 1, mkIdleSrv 2]
    algorithm := "least_loaded", rr_index := 0 }

/-- Fixture: a balancer with no servers. -/
def lbEmpty : LoadBalancer :=
  { servers := [], algorithm := "round_robin", rr_index := 0 }

/-- Fixture: a collector holding four response times. -/
def mFix : MetricsCollector :=
  { completed_requests := 4, dropped_requests := 0
    total_response_time := 10, response_times := [4, 1, 3, 2] }

/-- Fixture: a recording sequence of one completed and one dropped request. -/
def esFix : List MetricsEvent :=
  [MetricsEvent.completion { reqInSvc with completion_time := some 5 },
   MetricsEvent.drop reqW2]

/-- Fixture: an engine at final clock 5 whose single server still holds a
request scheduled to complete at 10. -/
def engDrain : SimulationEngine :=
  { arrival_rate := 2, service_rate := 1, sim_duration := 5, dt := 1
    request_timeout := none, clock := 5, utilization := 1
    lb := { servers := [{ mkIdleSrv 0 with
                          current_request := some
                            { request_id := 9, arrival_time := 0
                              service_time := 9, timeout := none
                              start_service_time := some 1
                              completion_time := some 10 } }]
            algorithm := "round_robin", rr_index := 0 }
    metrics := MetricsCollector.init, id_counter := 9 }

/-- Fixture: two creation-argument triples (arrival, service, timeout). -/
def argsC10 : List (Time × Time × Option Time) :=
  [(0, 1, none), (2, 5, some 1)]

/-- Fixture: a one-server engine as built by `SimulationEngine.init 0 1 2 1
3 1 "round_robin" none`. -/
def engC10 : SimulationEngine :=
  { arrival_rate := 2, service_rate := 1, sim_duration := 3, dt := 1
    request_timeout := none, clock := 0, utilization := 2
    lb := { servers := [mkIdleSrv 0], algorithm := "round_robin", rr_index := 0 }
    metrics := MetricsCollector.init, id_counter := 0 }

/-- Fixture: a two-tick schedule with one arrival per tick. -/
def schedC10 : List (List Time) :=
  [[2], [4]]

/-- Fixture: the state `engC10.run schedC10` ends in. -/
def engC10fin : SimulationEngine :=
  { arrival_rate := 2, service_rate := 1, sim_duration := 3, dt := 1
    request_timeout := none, clock := 2, utilization := 2
    lb := { servers := [{ mkIdleSrv 0 with
                          queue := [{ request_id := 2, arrival_time := 2
                                      service_time := 4, timeout := none
                                      start_service_time := none
                                      completion_time := none }] }]
            algorithm := "round_robin", rr_index := 2 }
    metrics := { completed_requests := 1, dropped_requests := 0
                 total_response_time := 2, response_times := [2] }
    id_counter := 2 }

/-- Fixture: the completion log of `engC10.run schedC10`. -/
def logC10 : List ClientRequest :=
  [{ request_id := 1, arrival_time := 1, service_time := 2, timeout := none
     start_service_time := some 1, completion_time := some 3 }]

end Fixtures

/-! ### Helper lemmas -/

theorem length_filter_add_length_filter_not {α : Type} (l : List α) (p : α → Bool) :
    (l.filter p).length + (l.filter (fun a => !(p a))).length = l.length := by
  induction l with
  | nil => simp
  | cons x xs ih =>
    by_cases h : p x = true <;> simp [List.filter, h] <;> omega

theorem is_timed_out_iff (r : ClientRequest) (t : Time) :
    r.is_timed_out t = true ↔ TimedOutSpec r t := by
  unfold ClientRequest.is_timed_out TimedOutSpec
  rcases hst : r.start_service_time with _ | st
  · rcases hto : r.timeout with _ | tmo <;> simp
  · simp

/-! ### Claim C2 -/

/-- Claim C2, counterexample: an idle server with a non-empty queue is not
in the claim's "busy and due" case, yet `tick` does change its state (it
starts the head request) rather than leaving server and queue unchanged
with an empty completion list. -/
theorem C2_counterexample :
    srvIdleQ.is_busy = false ∧ srvIdleQ.tick 1 ≠ some (srvIdleQ, []) := by
  decide

/-- Claim C2 (amended): if the server is busy and the clock is at or past
the current request's completion time, that request's completion time is
snapped to the clock, it is returned as completed, and in the same call a
non-empty queue's head is popped and started (start-of-service = clock,
completion = clock + service duration); if the server is busy with an
undue request, or idle with an empty queue, state and queue are unchanged
and the completion list is empty; and — the amendment — an initially idle
server with a non-empty queue likewise pops and starts the head, returning
an empty completion list. -/
theorem C2_tick_amended (s : ServerNode) (t : Time) :
    (∀ req ct, s.current_request = some req → req.completion_time = some ct →
      ct ≤ t →
      (s.queue = [] →
        s.tick t = some
          ({ s with current_request := none
                    completed := s.completed ++ [{ req with completion_time := some t }] },
           [{ req with completion_time := some t }]))
      ∧ (∀ r rest, s.queue = r :: rest →
          s.tick t = some
            ({ s with queue := rest
                      current_request := some
                        { r with start_service_time := some t
                                 completion_time := some (t + r.service_time) }
                      completed := s.completed ++ [{ req with completion_time := some t }] },
             [{ req with completion_time := some t }])))
    ∧ (∀ req ct, s.current_request = some req → req.completion_time = some ct →
        t < ct → s.tick t = some (s, []))
    ∧ (s.current_request = none → s.queue = [] → s.tick t = some (s, []))
    ∧ (∀ r rest, s.current_request = none → s.queue = r :: rest →
        s.tick t = some
          ({ s with queue := rest
                    current_request := some
                      { r with start_service_time := some t
                               completion_time := some (t + r.service_time) } },
           [])) := by
  refine ⟨?_, ?_, ?_, ?_⟩
  · intro req ct hcur hct hle
    constructor
    · intro hq
      simp [ServerNode.tick, hcur, hct, hle, ServerNode.startNext, hq]
    · intro r rest hq
      simp [ServerNode.tick, hcur, hct, hle, ServerNode.startNext, hq]
  · intro req ct hcur hct hlt
    simp [ServerNode.tick, hcur, hct, not_le.mpr hlt]
  · intro hcur hq
    simp [ServerNode.tick, hcur, ServerNode.startNext, hq]
  · intro r rest hcur hq
    simp [ServerNode.tick, hcur, ServerNode.startNext, hq]

/-- Witness for C2: the busy-and-due case with an empty queue, at a
concrete server and clock. -/
theorem C2_tick_amended_witness :
    srvBusyDue.tick 5 = some
      ({ srvBusyDue with current_request := none
                         completed := srvBusyDue.completed ++ [{ reqInSvc with completion_time := some 5 }] },
       [{ reqInSvc with completion_time := some 5 }]) :=
  ((C2_tick_amended srvBusyDue 5).1 reqInSvc 3 rfl rfl (by norm_num)).1 rfl

/-! ### Claim C3 -/

/-- Claim C3: `drop_timed_out` removes from the waiting queue exactly the
requests that have not started service and whose wait strictly exceeds
their timeout, returns them, keeps the rest in their original relative
order, and leaves the in-service request untouched; a request already in
service is never timed out. -/
theorem C3_timeout_eviction (s : ServerNode) (t : Time) :
    (∀ r : ClientRequest, r.is_timed_out t = true ↔ TimedOutSpec r t)
    ∧ (∀ r : ClientRequest, r ∈ (s.drop_timed_out t).2 ↔ r ∈ s.queue ∧ TimedOutSpec r t)
    ∧ (s.drop_timed_out t).1.queue.Sublist s.queue
    ∧ (∀ r : ClientRequest, r ∈ (s.drop_timed_out t).1.queue ↔ r ∈ s.queue ∧ ¬ TimedOutSpec r t)
    ∧ (s.drop_timed_out t).1.queue.length + (s.drop_timed_out t).2.length = s.queue.length
    ∧ (s.drop_timed_out t).1.current_request = s.current_request
    ∧ (∀ (r : ClientRequest) (st : Time), r.start_service_time = some st →
        r.is_timed_out t = false) := by
  refine ⟨fun r => is_timed_out_iff r t, ?_, ?_, ?_, ?_, ?_, ?_⟩
  · intro r
    simp [ServerNode.drop_timed_out, List.mem_filter, is_timed_out_iff]
  · exact List.filter_sublist s.queue
  · intro r
    simp only [ServerNode.drop_timed_out, List.mem_filter, Bool.not_eq_true',
      Bool.not_eq_true]
    rw [← is_timed_out_iff r t]
    constructor
    · rintro ⟨hmem, hfalse⟩
      exact ⟨hmem, by simp [hfalse]⟩
    · rintro ⟨hmem, hne⟩
      exact ⟨hmem, by revert hne; cases r.is_timed_out t <;> simp⟩
  · have h := length_filter_add_length_filter_not s.queue (fun r => r.is_timed_out t)
    simpa [ServerNode.drop_timed_out, Nat.add_comm] using h
  · rfl
  · intro r st hst
    simp [ClientRequest.is_timed_out, hst]

/-- Witness for C3: the characterization evaluated at a concrete server
and clock, including the never-timed-out clause at a concrete in-service
request. -/
theorem C3_timeout_eviction_witness :
    (reqW2 ∈ (srvTimeoutQ.drop_timed_out 10).2 ↔
      reqW2 ∈ srvTimeoutQ.queue ∧ TimedOutSpec reqW2 10)
    ∧ (srvTimeoutQ.drop_timed_out 10).1.current_request = srvTimeoutQ.current_request
    ∧ reqInSvc.is_timed_out 10 = false :=
  ⟨(C3_timeout_eviction srvTimeoutQ 10).2.1 reqW2,
   (C3_timeout_eviction srvTimeoutQ 10).2.2.2.2.2.1,
   (C3_timeout_eviction srvTimeoutQ 10).2.2.2.2.2.2 reqInSvc 1 rfl⟩

/-! ### Claim C7 -/

/-- Claim C7: `percentile(p)` for `0 ≤ p ≤ 100` returns `0` on an empty
response-time sequence, and otherwise the entry at index
`max(0, floor(count * p / 100) - 1)` of the response times sorted
ascending — the exact order-statistic index formula, not an interpolated
percentile. -/
theorem C7_percentile (m : MetricsCollector) (p : ℚ)
    (hp0 : 0 ≤ p) (hp1 : p ≤ 100) :
    (m.response_times = [] → m.percentile p = 0)
    ∧ (m.response_times ≠ [] →
        ∃ (l : List Time)
          (hidx : (max 0 (⌊(m.response_times.length : ℚ) * p / 100⌋ - 1)).toNat
                    < l.length),
          l.Perm m.response_times ∧ l.Sorted (· ≤ ·)
          ∧ m.percentile p
              = l.get ⟨(max 0 (⌊(m.response_times.length : ℚ) * p / 100⌋ - 1)).toNat,
                       hidx⟩) := by
  constructor
  · intro h
    simp [MetricsCollector.percentile, h]
  · intro hne
    rcases hrt : m.response_times with _ | ⟨x, xs⟩
    · exact absurd hrt hne
    set rts := x :: xs with hrts
    have hlen1 : 1 ≤ rts.length := by simp [hrts]
    set l := rts.mergeSort (fun a b => decide (a ≤ b)) with hl
    have hperm : l.Perm rts := List.mergeSort_perm rts _
    have hlenl : l.length = rts.length := List.length_mergeSort rts
    have hsorted : l.Sorted (· ≤ ·) := by
      have h := @List.sorted_mergeSort Time (fun a b : Time => decide (a ≤ b))
        (fun a b c hab hbc => by
          simp only [decide_eq_true_iff] at *
          exact le_trans hab hbc)
        (fun a b => by
          simp only [Bool.or_eq_true, decide_eq_true_iff]
          exact le_total a b)
        rts
      exact h.imp (fun hab => by simpa using hab)
    -- the argument of `int(...)` is non-negative, so `pyInt` is `⌊⌋`
    have hq0 : (0 : ℚ) ≤ (rts.length : ℚ) * p / 100 := by positivity
    have hpy : pyInt ((rts.length : ℚ) * p / 100) = ⌊(rts.length : ℚ) * p / 100⌋ := by
      simp [pyInt, hq0]
    -- the index is in bounds: `⌊len * p / 100⌋ ≤ len`
    have hfle : ⌊(rts.length : ℚ) * p / 100⌋ ≤ (rts.length : ℤ) := by
      have : (rts.length : ℚ) * p / 100 ≤ (rts.length : ℚ) := by
        rw [div_le_iff₀ (by norm_num)]
        calc (rts.length : ℚ) * p ≤ (rts.length : ℚ) * 100 := by
              exact mul_le_mul_of_nonneg_left hp1 (by positivity)
          _ = (rts.length : ℚ) * 100 := rfl
      calc ⌊(rts.length : ℚ) * p / 100⌋ ≤ ⌊(rts.length : ℚ)⌋ := Int.floor_le_floor this
        _ = (rts.length : ℤ) := by simp
    have hidx : (max 0 (⌊(rts.length : ℚ) * p / 100⌋ - 1)).toNat < l.length := by
      rw [hlenl]
      have h1 : (max 0 (⌊(rts.length : ℚ) * p / 100⌋ - 1)) ≤ (rts.length : ℤ) - 1 := by
        rcases max_cases 0 (⌊(rts.length : ℚ) * p / 100⌋ - 1) with ⟨heq, _⟩ | ⟨heq, _⟩ <;>
          rw [heq] <;> omega
      omega
    refine ⟨l, hidx, hperm, hsorted, ?_⟩
    have hstep : m.percentile p
        = l.getD (max 0 (pyInt ((l.length : ℚ) * p / 100) - 1)).toNat 0 := by
      simp only [MetricsCollector.percentile, hrt]
    rw [hstep]
    conv_lhs => rw [hlenl, hpy]
    rw [List.getD_eq_getElem l 0 hidx]
    simp [List.get_eq_getElem]

/-- Witness for C7 at a concrete collector and `p = 95`. -/
theorem C7_percentile_witness :
    (0 : ℚ) ≤ 95 ∧ (95 : ℚ) ≤ 100
    ∧ ((mFix.response_times = [] → mFix.percentile 95 = 0)
      ∧ (mFix.response_times ≠ [] →
          ∃ (l : List Time)
            (hidx : (max 0 (⌊(mFix.response_times.length : ℚ) * 95 / 100⌋ - 1)).toNat
                      < l.length),
            l.Perm mFix.response_times ∧ l.Sorted (· ≤ ·)
            ∧ mFix.percentile 95
                = l.get ⟨(max 0 (⌊(mFix.response_times.length : ℚ) * 95 / 100⌋ - 1)).toNat,
                         hidx⟩)) :=
  ⟨by norm_num, by norm_num, C7_percentile mFix 95 (by norm_num) (by norm_num)⟩

/-! ### Claim C8 -/

theorem recordAll_counts (es : List MetricsEvent) :
    ∀ m : MetricsCollector,
      (∀ r, MetricsEvent.completion r ∈ es → r.response_time ≠ none) →
      (m.recordAll es).completed_requests + (m.recordAll es).dropped_requests
        = m.completed_requests + m.dropped_requests + es.length := by
  induction es with
  | nil => intro m _; simp [MetricsCollector.recordAll]
  | cons ev rest ih =>
    intro m h
    have hrest : ∀ r, MetricsEvent.completion r ∈ rest → r.response_time ≠ none :=
      fun r hr => h r (List.mem_cons_of_mem ev hr)
    have hstep : (m.recordAll (ev :: rest)) = ((m.record ev).recordAll rest) := rfl
    rw [hstep, ih (m.record ev) hrest]
    cases ev with
    | completion r =>
      have hr : r.response_time ≠ none := h r (List.mem_cons_self _ _)
      rcases hrt : r.response_time with _ | rt
      · exact absurd hrt hr
      · simp [MetricsCollector.record, MetricsCollector.record_completion, hrt]
        omega
    | drop r =>
      simp [MetricsCollector.record, MetricsCollector.record_drop]
      omega

theorem recordAll_resp_len (es : List MetricsEvent) :
    ∀ m : MetricsCollector,
      m.response_times.length = m.completed_requests →
      (m.recordAll es).response_times.length = (m.recordAll es).completed_requests := by
  induction es with
  | nil => intro m h; simpa [MetricsCollector.recordAll] using h
  | cons ev rest ih =>
    intro m h
    have hstep : (m.recordAll (ev :: rest)) = ((m.record ev).recordAll rest) := rfl
    rw [hstep]
    apply ih
    cases ev with
    | completion r =>
      rcases hrt : r.response_time with _ | rt
      · simpa [MetricsCollector.record, MetricsCollector.record_completion, hrt] using h
      · simp [MetricsCollector.record, MetricsCollector.record_completion, hrt, h]
    | drop r =>
      simpa [MetricsCollector.record, MetricsCollector.record_drop] using h

/-- Claim C8, counterexample: handing the collector a single
`record_completion` call for a request whose response time is not yet
determinable leaves `completed + dropped = 0`, yet one request was handed
to the collector, so `completed + dropped` is not the number of requests
ever handed over. -/
theorem C8_counterexample :
    reqW.response_time = none
    ∧ (MetricsCollector.init.recordAll [MetricsEvent.completion reqW]).completed_requests
        + (MetricsCollector.init.recordAll [MetricsEvent.completion reqW]).dropped_requests
        ≠ [MetricsEvent.completion reqW].length := by
  decide

/-- Claim C8 (amended): over every sequence of `record_completion` and
`record_drop` calls starting from a fresh collector, if every
`record_completion` call carries a determinable response time then
`completed + dropped` equals the number of calls; and unconditionally the
response-time sequence has length equal to the completed count. -/
theorem C8_metrics_invariant_amended (es : List MetricsEvent) :
    ((∀ r, MetricsEvent.completion r ∈ es → r.response_time ≠ none) →
      (MetricsCollector.init.recordAll es).completed_requests
        + (MetricsCollector.init.recordAll es).dropped_requests = es.length)
    ∧ (MetricsCollector.init.recordAll es).response_times.length
        = (MetricsCollector.init.recordAll es).completed_requests := by
  constructor
  · intro h
    simpa [MetricsCollector.init] using recordAll_counts es MetricsCollector.init h
  · exact recordAll_resp_len es MetricsCollector.init (by simp [MetricsCollector.init])

/-- Witness for C8 at a concrete two-call sequence. -/
theorem C8_metrics_invariant_amended_witness :
    (MetricsCollector.init.recordAll esFix).completed_requests
      + (MetricsCollector.init.recordAll esFix).dropped_requests = esFix.length
    ∧ (MetricsCollector.init.recordAll esFix).response_times.length
      = (MetricsCollector.init.recordAll esFix).completed_requests :=
  ⟨(C8_metrics_invariant_amended esFix).1 (by
      intro r hr
      simp only [esFix, List.mem_cons, List.not_mem_nil, or_false] at hr
      rcases hr with hr | hr
      · cases hr; decide
      · cases hr),
   (C8_metrics_invariant_amended esFix).2⟩

/-! ### Claim C9 -/

/-- Claim C9: constructing a dispatcher with an unrecognized policy name
fails at construction time (and only then); `dispatch` fails on an empty
server list; and under a recognized policy with a non-empty server list
`dispatch` always succeeds. -/
theorem C9_config_errors (servers : List ServerNode) (alg : String)
    (lb : LoadBalancer) (req : ClientRequest) :
    ((LoadBalancer.init servers alg).isOk = false ↔ alg ∉ LoadBalancer.ALGORITHMS)
    ∧ (lb.servers = [] → (lb.dispatch req).isOk = false)
    ∧ (lb.algorithm ∈ LoadBalancer.ALGORITHMS → lb.servers ≠ [] →
        ∃ out, lb.dispatch req = .ok out) := by
  refine ⟨?_, ?_, ?_⟩
  · by_cases h : alg ∈ LoadBalancer.ALGORITHMS <;>
      simp [LoadBalancer.init, h, Except.isOk, Except.toBool]
  · intro h
    simp [LoadBalancer.dispatch, h, Except.isOk, Except.toBool]
  · intro _ hne
    have hempty : lb.servers.isEmpty = false := by
      simpa [List.isEmpty_iff] using hne
    simp only [LoadBalancer.dispatch, hempty, Bool.false_eq_true, if_false]
    exact ⟨_, rfl⟩

/-- Witness for C9: the unrecognized name `"fastest"` is rejected, the
empty balancer's dispatch fails, and a concrete recognized balancer
dispatches successfully. -/
theorem C9_config_errors_witness :
    ((LoadBalancer.init [] "fastest").isOk = false ↔
      "fastest" ∉ LoadBalancer.ALGORITHMS)
    ∧ (lbEmpty.dispatch reqW).isOk = false
    ∧ ∃ out, lbRR1.dispatch reqW = .ok out :=
  ⟨(C9_config_errors [] "fastest" lbEmpty reqW).1,
   (C9_config_errors [] "fastest" lbEmpty reqW).2.1 rfl,
   (C9_config_errors [] "fastest" lbRR1 reqW).2.2 (by decide) (by decide)⟩

/-! ### Claim C5 -/

theorem listModify_length {α : Type} (f : α → α) :
    ∀ (i : Nat) (l : List α), (listModify f i l).length = l.length := by
  intro i l
  induction l generalizing i with
  | nil => simp [listModify]
  | cons x xs ih =>
    cases i with
    | zero => simp [listModify]
    | succ n => simp [listModify, ih]

theorem dispatch_rr (lb : LoadBalancer) (req : ClientRequest)
    (halg : lb.algorithm = "round_robin") (hne : lb.servers ≠ []) :
    lb.dispatch req = .ok
      ({ lb with
          rr_index := lb.rr_index + 1
          servers := listModify (fun s => s.enqueue req)
            (lb.rr_index % lb.servers.length) lb.servers },
       lb.rr_index % lb.servers.length) := by
  have hempty : lb.servers.isEmpty = false := by
    simpa [List.isEmpty_iff] using hne
  simp [LoadBalancer.dispatch, hempty, halg, LoadBalancer.round_robin]

theorem dispatchSeq_rr (reqs : List ClientRequest) :
    ∀ lb : LoadBalancer, lb.algorithm = "round_robin" → lb.servers ≠ [] →
      ∃ lb' : LoadBalancer,
        lb.dispatchSeq reqs = .ok
          (lb', (List.range reqs.length).map
                  (fun j => (lb.rr_index + j) % lb.servers.length))
        ∧ lb'.rr_index = lb.rr_index + reqs.length
        ∧ lb'.servers.length = lb.servers.length
        ∧ lb'.algorithm = lb.algorithm := by
  induction reqs with
  | nil =>
    intro lb _ _
    exact ⟨lb, by simp [LoadBalancer.dispatchSeq], by simp, rfl, rfl⟩
  | cons r rs ih =>
    intro lb halg hne
    set lb1 : LoadBalancer :=
      { lb with
        rr_index := lb.rr_index + 1
        servers := listModify (fun s => s.enqueue r)
          (lb.rr_index % lb.servers.length) lb.servers } with hlb1
    have hlen1 : lb1.servers.length = lb.servers.length := by
      simp [hlb1, listModify_length]
    have hne1 : lb1.servers ≠ [] := by
      intro hnil
      apply hne
      have := hlen1
      rw [hnil] at this
      exact List.eq_nil_of_length_eq_zero this.symm
    obtain ⟨lb', hseq, hrr, hlen, halg'⟩ := ih lb1 (by simp [hlb1, halg]) hne1
    refine ⟨lb', ?_, ?_, ?_, ?_⟩
    · have hmap : (List.range (r :: rs).length).map
            (fun j => (lb.rr_index + j) % lb.servers.length)
          = (lb.rr_index % lb.servers.length)
            :: (List.range rs.length).map
                 (fun j => (lb1.rr_index + j) % lb1.servers.length) := by
        rw [List.length_cons, List.range_succ_eq_map, List.map_cons, List.map_map,
          List.cons_eq_cons]
        constructor
        · simp
        · apply List.map_congr_left
          intro j _
          simp only [Function.comp_apply, hlb1, listModify_length]
          congr 1
          omega
      show lb.dispatchSeq (r :: rs) = _
      rw [LoadBalancer.dispatchSeq, dispatch_rr lb r halg hne]
      dsimp only
      rw [← hlb1, hseq, hmap]
    · rw [hrr]; simp [hlb1]; omega
    · rw [hlen, hlen1]
    · rw [halg']

/-- Claim C5, counterexample: a reachable round-robin dispatcher over two
servers (identifiers `[0, 1]`, pointer mid-cycle at 1, as after one
dispatch from a fresh dispatcher) chooses positions `[1, 0]` over the next
two dispatches — each server exactly once, but not in ascending identifier
order. -/
theorem C5_counterexample :
    lbRR1.algorithm = "round_robin"
    ∧ lbRR1.servers.length = 2
    ∧ lbRR1.servers.map ServerNode.server_id = [0, 1]
    ∧ (lbRR1.dispatchSeq [reqW, reqW2]).toOption.map (fun p => p.2) = some [1, 0]
    ∧ ¬ List.Sorted (· ≤ ·) [(1 : Nat), 0] := by
  decide

/-- Claim C5 (amended): the cyclic dispatcher's counter increments on
every dispatch and the chosen position is `counter % N`; `N` consecutive
dispatches choose the positions `(counter + j) % N` for `j < N` — each
server exactly once, in cyclically ascending order, independent of queue
lengths — and the order is the ascending `[0, 1, ..., N-1]` exactly when
the window starts with `counter % N = 0` (e.g. on a fresh dispatcher). -/
theorem C5_round_robin_amended (lb : LoadBalancer)
    (req : ClientRequest) (reqs : List ClientRequest)
    (halg : lb.algorithm = "round_robin") (hne : lb.servers ≠ [])
    (hlen : reqs.length = lb.servers.length) :
    (∃ lb1, lb.dispatch req = .ok (lb1, lb.rr_index % lb.servers.length)
      ∧ lb1.rr_index = lb.rr_index + 1)
    ∧ ∃ (lb' : LoadBalancer) (idxs : List Nat),
        lb.dispatchSeq reqs = .ok (lb', idxs)
        ∧ idxs = (List.range lb.servers.length).map
            (fun j => (lb.rr_index + j) % lb.servers.length)
        ∧ idxs.Nodup
        ∧ (∀ i < lb.servers.length, i ∈ idxs)
        ∧ lb'.rr_index = lb.rr_index + lb.servers.length
        ∧ (lb.rr_index % lb.servers.length = 0 →
            idxs = List.range lb.servers.length) := by
  have hN : 0 < lb.servers.length := List.length_pos.mpr hne
  constructor
  · exact ⟨_, dispatch_rr lb req halg hne, rfl⟩
  · obtain ⟨lb', hseq, hrr, _, _⟩ := dispatchSeq_rr reqs lb halg hne
    rw [hlen] at hseq hrr
    set N := lb.servers.length with hNdef
    set idxs := (List.range N).map (fun j => (lb.rr_index + j) % N) with hidxs
    have hnodup : idxs.Nodup := by
      apply List.Nodup.map_on _ (List.nodup_range N)
      intro a ha b hb hab
      rw [List.mem_range] at ha hb
      have h1 : (lb.rr_index + a) % N = (lb.rr_index + b) % N := hab
      have h2 : a % N = b % N := Nat.ModEq.add_left_cancel' lb.rr_index h1
      rwa [Nat.mod_eq_of_lt ha, Nat.mod_eq_of_lt hb] at h2
    have hlenidx : idxs.length = N := by simp [hidxs]
    have hsub : idxs ⊆ List.range N := by
      intro i hi
      rw [hidxs, List.mem_map] at hi
      obtain ⟨j, _, hj⟩ := hi
      rw [List.mem_range, ← hj]
      exact Nat.mod_lt _ hN
    have hperm : idxs.Perm (List.range N) :=
      (List.subperm_of_subset hnodup hsub).perm_of_length_le (by simp [hlenidx])
    refine ⟨lb', idxs, hseq, rfl, hnodup, ?_, hrr, ?_⟩
    · intro i hi
      exact hperm.mem_iff.mpr (List.mem_range.mpr hi)
    · intro h0
      rw [hidxs]
      have : ∀ j ∈ List.range N, (lb.rr_index + j) % N = j := by
        intro j hj
        rw [List.mem_range] at hj
        rw [Nat.add_mod, h0, Nat.zero_add, Nat.mod_mod_of_dvd, Nat.mod_eq_of_lt hj]
        exact dvd_refl N
      rw [List.map_congr_left this]
      simp

/-- Witness for C5: a fresh two-server round-robin dispatcher. -/
theorem C5_round_robin_amended_witness :
    ({ lbRR1 with rr_index := 0 } : LoadBalancer).algorithm = "round_robin"
    ∧ ({ lbRR1 with rr_index := 0 } : LoadBalancer).servers ≠ []
    ∧ ([reqW, reqW2].length = ({ lbRR1 with rr_index := 0 } : LoadBalancer).servers.length)
    ∧ ((∃ lb1, ({ lbRR1 with rr_index := 0 } : LoadBalancer).dispatch reqW
          = .ok (lb1, ({ lbRR1 with rr_index := 0 } : LoadBalancer).rr_index
                        % ({ lbRR1 with rr_index := 0 } : LoadBalancer).servers.length)
          ∧ lb1.rr_index = ({ lbRR1 with rr_index := 0 } : LoadBalancer).rr_index + 1)
      ∧ ∃ (lb' : LoadBalancer) (idxs : List Nat),
          ({ lbRR1 with rr_index := 0 } : LoadBalancer).dispatchSeq [reqW, reqW2]
            = .ok (lb', idxs)
          ∧ idxs = (List.range ({ lbRR1 with rr_index := 0 } : LoadBalancer).servers.length).map
              (fun j => (({ lbRR1 with rr_index := 0 } : LoadBalancer).rr_index + j)
                          % ({ lbRR1 with rr_index := 0 } : LoadBalancer).servers.length)
          ∧ idxs.Nodup
          ∧ (∀ i < ({ lbRR1 with rr_index := 0 } : LoadBalancer).servers.length, i ∈ idxs)
          ∧ lb'.rr_index = ({ lbRR1 with rr_index := 0 } : LoadBalancer).rr_index
              + ({ lbRR1 with rr_index := 0 } : LoadBalancer).servers.length
          ∧ (({ lbRR1 with rr_index := 0 } : LoadBalancer).rr_index
               % ({ lbRR1 with rr_index := 0 } : LoadBalancer).servers.length = 0 →
              idxs = List.range ({ lbRR1 with rr_index := 0 } : LoadBalancer).servers.length)) :=
  ⟨rfl, by decide, rfl,
   C5_round_robin_amended { lbRR1 with rr_index := 0 } reqW [reqW, reqW2]
     rfl (by decide) rfl⟩

/-! ### Claim C6 -/

theorem pyMinIdxGo_spec {α : Type} (key : α → Nat) :
    ∀ (l : List α) (i bi bk : Nat),
      (pyMinIdxGo key l i bi bk = bi ∧ ∀ x ∈ l, bk ≤ key x)
      ∨ (∃ (j : Nat) (hj : j < l.length),
          pyMinIdxGo key l i bi bk = i + j
          ∧ key (l.get ⟨j, hj⟩) < bk
          ∧ (∀ (k : Nat) (hk : k < l.length),
              key (l.get ⟨j, hj⟩) ≤ key (l.get ⟨k, hk⟩))
          ∧ (∀ (k : Nat) (hk : k < l.length), k < j →
              key (l.get ⟨j, hj⟩) < key (l.get ⟨k, hk⟩))) := by
  intro l
  induction l with
  | nil =>
    intro i bi bk
    left
    exact ⟨rfl, by simp⟩
  | cons x xs ih =>
    intro i bi bk
    by_cases hx : key x < bk
    · right
      rcases ih (i + 1) i (key x) with ⟨heq, hall⟩ | ⟨j, hj, heq, hlt, hmin, hfirst⟩
      · refine ⟨0, by simp, ?_, hx, ?_, ?_⟩
        · simpa [pyMinIdxGo, hx] using heq
        · intro k hk
          cases k with
          | zero => exact le_refl _
          | succ k' =>
            have hk' : k' < xs.length := Nat.lt_of_succ_lt_succ hk
            have hg : (x :: xs).get ⟨k' + 1, hk⟩ = xs.get ⟨k', hk'⟩ := rfl
            rw [hg]
            exact hall _ (List.get_mem xs k' hk')
        · intro k hk hk0
          omega
      · refine ⟨j + 1, Nat.succ_lt_succ hj, ?_, ?_, ?_, ?_⟩
        · have h2 : pyMinIdxGo key (x :: xs) i bi bk
              = pyMinIdxGo key xs (i + 1) i (key x) := by
            simp [pyMinIdxGo, hx]
          rw [h2, heq]
          omega
        · have hg : (x :: xs).get ⟨j + 1, Nat.succ_lt_succ hj⟩ = xs.get ⟨j, hj⟩ := rfl
          rw [hg]
          exact lt_trans hlt hx
        · intro k hk
          have hg : (x :: xs).get ⟨j + 1, Nat.succ_lt_succ hj⟩ = xs.get ⟨j, hj⟩ := rfl
          rw [hg]
          cases k with
          | zero =>
            have hg0 : (x :: xs).get ⟨0, hk⟩ = x := rfl
            rw [hg0]
            exact le_of_lt hlt
          | succ k' =>
            have hk' : k' < xs.length := Nat.lt_of_succ_lt_succ hk
            have hgk : (x :: xs).get ⟨k' + 1, hk⟩ = xs.get ⟨k', hk'⟩ := rfl
            rw [hgk]
            exact hmin k' hk'
        · intro k hk hklt
          have hg : (x :: xs).get ⟨j + 1, Nat.succ_lt_succ hj⟩ = xs.get ⟨j, hj⟩ := rfl
          rw [hg]
          cases k with
          | zero =>
            have hg0 : (x :: xs).get ⟨0, hk⟩ = x := rfl
            rw [hg0]
            exact hlt
          | succ k' =>
            have hk' : k' < xs.length := Nat.lt_of_succ_lt_succ hk
            have hgk : (x :: xs).get ⟨k' + 1, hk⟩ = xs.get ⟨k', hk'⟩ := rfl
            rw [hgk]
            exact hfirst k' hk' (by omega)
    · rcases ih (i + 1) bi bk with ⟨heq, hall⟩ | ⟨j, hj, heq, hlt, hmin, hfirst⟩
      · left
        refine ⟨by simpa [pyMinIdxGo, hx] using heq, ?_⟩
        intro y hy
        rcases List.mem_cons.mp hy with hy | hy
        · subst hy; omega
        · exact hall _ hy
      · right
        refine ⟨j + 1, Nat.succ_lt_succ hj, ?_, ?_, ?_, ?_⟩
        · have h2 : pyMinIdxGo key (x :: xs) i bi bk
              = pyMinIdxGo key xs (i + 1) bi bk := by
            simp [pyMinIdxGo, hx]
          rw [h2, heq]
          omega
        · have hg : (x :: xs).get ⟨j + 1, Nat.succ_lt_succ hj⟩ = xs.get ⟨j, hj⟩ := rfl
          rw [hg]
          exact hlt
        · intro k hk
          have hg : (x :: xs).get ⟨j + 1, Nat.succ_lt_succ hj⟩ = xs.get ⟨j, hj⟩ := rfl
          rw [hg]
          cases k with
          | zero =>
            have hg0 : (x :: xs).get ⟨0, hk⟩ = x := rfl
            rw [hg0]
            omega
          | succ k' =>
            have hk' : k' < xs.length := Nat.lt_of_succ_lt_succ hk
            have hgk : (x :: xs).get ⟨k' + 1, hk⟩ = xs.get ⟨k', hk'⟩ := rfl
            rw [hgk]
            exact hmin k' hk'
        · intro k hk hklt
          have hg : (x :: xs).get ⟨j + 1, Nat.succ_lt_succ hj⟩ = xs.get ⟨j, hj⟩ := rfl
          rw [hg]
          cases k with
          | zero =>
            have hg0 : (x :: xs).get ⟨0, hk⟩ = x := rfl
            rw [hg0]
            omega
          | succ k' =>
            have hk' : k' < xs.length := Nat.lt_of_succ_lt_succ hk
            have hgk : (x :: xs).get ⟨k' + 1, hk⟩ = xs.get ⟨k', hk'⟩ := rfl
            rw [hgk]
            exact hfirst k' hk' (by omega)

theorem least_loaded_spec (s : ServerNode) (rest : List ServerNode) :
    ∃ (r : Nat) (hr : r < (s :: rest).length),
      pyMinIdxGo ServerNode.queue_length rest 1 0 s.queue_length = r
      ∧ (∀ (k : Nat) (hk : k < (s :: rest).length),
          ((s :: rest).get ⟨r, hr⟩).queue_length
            ≤ ((s :: rest).get ⟨k, hk⟩).queue_length)
      ∧ (∀ (k : Nat) (hk : k < (s :: rest).length), k < r →
          ((s :: rest).get ⟨r, hr⟩).queue_length
            < ((s :: rest).get ⟨k, hk⟩).queue_length) := by
  rcases pyMinIdxGo_spec ServerNode.queue_length rest 1 0 s.queue_length with
    ⟨heq, hall⟩ | ⟨j, hj, heq, hlt, hmin, hfirst⟩
  · refine ⟨0, Nat.succ_pos _, heq, ?_, ?_⟩
    · intro k hk
      cases k with
      | zero => exact le_refl _
      | succ k' =>
        have hk' : k' < rest.length := Nat.lt_of_succ_lt_succ hk
        have hg : (s :: rest).get ⟨k' + 1, hk⟩ = rest.get ⟨k', hk'⟩ := rfl
        rw [hg]
        exact hall _ (List.get_mem rest k' hk')
    · intro k hk hk0
      omega
  · have hr : j + 1 < (s :: rest).length := Nat.succ_lt_succ hj
    have hgr : (s :: rest).get ⟨j + 1, hr⟩ = rest.get ⟨j, hj⟩ := rfl
    refine ⟨j + 1, hr, by rw [heq]; omega, ?_, ?_⟩
    · intro k hk
      rw [hgr]
      cases k with
      | zero =>
        have hg0 : (s :: rest).get ⟨0, hk⟩ = s := rfl
        rw [hg0]
        exact le_of_lt hlt
      | succ k' =>
        have hk' : k' < rest.length := Nat.lt_of_succ_lt_succ hk
        have hgk : (s :: rest).get ⟨k' + 1, hk⟩ = rest.get ⟨k', hk'⟩ := rfl
        rw [hgk]
        exact hmin k' hk'
    · intro k hk hklt
      rw [hgr]
      cases k with
      | zero =>
        have hg0 : (s :: rest).get ⟨0, hk⟩ = s := rfl
        rw [hg0]
        exact hlt
      | succ k' =>
        have hk' : k' < rest.length := Nat.lt_of_succ_lt_succ hk
        have hgk : (s :: rest).get ⟨k' + 1, hk⟩ = rest.get ⟨k', hk'⟩ := rfl
        rw [hgk]
        exact hfirst k' hk' (by omega)

/-- Claim C6: under the least-loaded policy with a non-empty server list,
dispatch succeeds and chooses a position whose waiting-queue length
(excluding the in-service slot) is minimal over all servers, and strictly
smaller than every earlier position's (the first minimizer wins ties);
hence, when identifiers increase along the configured ordering — as the
engine assigns them — the chosen server has the lowest identifier among
the servers tied at the minimum. -/
theorem C6_least_loaded (lb : LoadBalancer) (req : ClientRequest)
    (halg : lb.algorithm = "least_loaded") (hne : lb.servers ≠ []) :
    ∃ (i : Nat) (hi : i < lb.servers.length),
      lb.dispatch req = .ok
        ({ lb with servers := listModify (fun s => s.enqueue req) i lb.servers }, i)
      ∧ (∀ (j : Nat) (hj : j < lb.servers.length),
          (lb.servers.get ⟨i, hi⟩).queue_length
            ≤ (lb.servers.get ⟨j, hj⟩).queue_length)
      ∧ (∀ (j : Nat) (hj : j < lb.servers.length), j < i →
          (lb.servers.get ⟨i, hi⟩).queue_length
            < (lb.servers.get ⟨j, hj⟩).queue_length)
      ∧ ((lb.servers.map ServerNode.server_id).Pairwise (· < ·) →
          ∀ (j : Nat) (hj : j < lb.servers.length),
            (lb.servers.get ⟨j, hj⟩).queue_length
              = (lb.servers.get ⟨i, hi⟩).queue_length →
            (lb.servers.get ⟨i, hi⟩).server_id
              ≤ (lb.servers.get ⟨j, hj⟩).server_id) := by
  rcases hsrv : lb.servers with _ | ⟨s0, rest⟩
  · exact absurd hsrv hne
  obtain ⟨r, hr, heq, hmin, hfirst⟩ := least_loaded_spec s0 rest
  have hempty : lb.servers.isEmpty = false := by simp [hsrv]
  have hrrneq : (lb.algorithm = "round_robin") = False := by
    simp [halg]
  refine ⟨r, hr, ?_, fun j hj => hmin j hj, fun j hj => hfirst j hj, ?_⟩
  · simp only [LoadBalancer.dispatch, hempty, Bool.false_eq_true, if_false, hrrneq,
      LoadBalancer.least_loaded, hsrv, heq, List.isEmpty_cons]
  · intro hpair j hj hjq
    by_contra hlt
    push_neg at hlt
    have hpair' : (s0 :: rest).Pairwise
        (fun a b => a.server_id < b.server_id) := List.pairwise_map.mp hpair
    rcases Nat.lt_trichotomy j r with hji | hji | hji
    · -- an earlier tied position contradicts the strict first-minimizer fact
      have := hfirst j hj hji
      omega
    · have : j = r := hji.symm ▸ rfl
      subst this
      omega
    · -- identifiers increase along the list, so the later position j has a
      -- strictly larger identifier, contradicting hlt
      have := (List.pairwise_iff_get.mp hpair') ⟨r, hr⟩ ⟨j, hj⟩ hji
      omega

/-- Witness for C6 at a concrete three-server balancer whose first server
is loaded: a position with the shortest queue is chosen. -/
theorem C6_least_loaded_witness :
    lbLL.algorithm = "least_loaded" ∧ lbLL.servers ≠ []
    ∧ ∃ (i : Nat) (hi : i < lbLL.servers.length),
        lbLL.dispatch reqW2 = .ok
          ({ lbLL with servers := listModify (fun s => s.enqueue reqW2) i lbLL.servers }, i)
        ∧ (∀ (j : Nat) (hj : j < lbLL.servers.length),
            (lbLL.servers.get ⟨i, hi⟩).queue_length
              ≤ (lbLL.servers.get ⟨j, hj⟩).queue_length)
        ∧ (∀ (j : Nat) (hj : j < lbLL.servers.length), j < i →
            (lbLL.servers.get ⟨i, hi⟩).queue_length
              < (lbLL.servers.get ⟨j, hj⟩).queue_length)
        ∧ ((lbLL.servers.map ServerNode.server_id).Pairwise (· < ·) →
            ∀ (j : Nat) (hj : j < lbLL.servers.length),
              (lbLL.servers.get ⟨j, hj⟩).queue_length
                = (lbLL.servers.get ⟨i, hi⟩).queue_length →
              (lbLL.servers.get ⟨i, hi⟩).server_id
                ≤ (lbLL.servers.get ⟨j, hj⟩).server_id) :=
  ⟨rfl, by decide, C6_least_loaded lbLL reqW2 rfl (by decide)⟩

/-! ### Claim C1 -/

theorem server_idle_eta (s : ServerNode) (h : s.current_request = none) :
    { s with current_request := none } = s := by
  cases s
  simp_all

theorem drainServers_spec (clock : Time) (servers : List ServerNode) :
    ∀ m : MetricsCollector,
      (drainServers clock m servers).1
        = servers.map (fun s => { s with current_request := none })
      ∧ (drainServers clock m servers).2.2
        = servers.filterMap (fun s => s.current_request.map
            (fun r => { r with completion_time := some (pyOr r.completion_time clock) }))
      ∧ (drainServers clock m servers).2.1
        = ((drainServers clock m servers).2.2).foldl
            MetricsCollector.record_completion m := by
  induction servers with
  | nil =>
    intro m
    simp [drainServers]
  | cons s rest ih =>
    intro m
    rcases hc : s.current_request with _ | req
    · obtain ⟨h1, h2, h3⟩ := ih m
      refine ⟨?_, ?_, ?_⟩
      · simp only [drainServers, hc, List.map_cons]
        rw [h1, server_idle_eta s hc]
      · simp only [drainServers, hc, List.filterMap_cons, Option.map_none']
        exact h2
      · simp only [drainServers, hc]
        exact h3
    · obtain ⟨h1, h2, h3⟩ := ih (m.record_completion
        { req with completion_time := some (pyOr req.completion_time clock) })
      refine ⟨?_, ?_, ?_⟩
      · simp only [drainServers, hc, List.map_cons]
        rw [h1]
      · simp only [drainServers, hc, List.filterMap_cons, Option.map_some']
        rw [h2]
      · simp only [drainServers, hc]
        rw [h3, h2, List.foldl_cons]

/-- Claim C1, counterexample: at the end of a run with final clock 5, a
server still holds a request whose scheduled completion time 10 was never
reached; the drain step records it as completed at its *scheduled* time 10
(Python `completion_time or clock` keeps a truthy stored value) — it does
not overwrite the future-scheduled completion time with the final clock
value 5. -/
theorem C1_counterexample :
    engDrain.clock = 5
    ∧ (engDrain.lb.servers.map (fun s => s.current_request.map
        ClientRequest.completion_time)) = [some (some 10)]
    ∧ engDrain.clock < 10
    ∧ engDrain.drain_remaining.2.map ClientRequest.completion_time = [some 10]
    ∧ engDrain.drain_remaining.2.map ClientRequest.completion_time ≠ [some 5] := by
  decide

/-- Claim C1 (amended): after the main loop, the drain step makes every
server idle (queues untouched, nothing re-enqueued), records exactly one
completion per busy server, and finalizes an in-service request at its
*scheduled* completion time whenever that stored time is non-zero — even
when it exceeds the final clock; the final clock value is substituted only
for a falsy (`None` or `0.0`) stored completion time. -/
theorem C1_drain_amended (e : SimulationEngine) (k : Nat)
    (hk : k < e.lb.servers.length) (req : ClientRequest) (ct : Time)
    (hbusy : (e.lb.servers.get ⟨k, hk⟩).current_request = some req)
    (hct : req.completion_time = some ct) (hct0 : ct ≠ 0) :
    e.drain_remaining.1.lb.servers
      = e.lb.servers.map (fun s => { s with current_request := none })
    ∧ e.drain_remaining.2
      = e.lb.servers.filterMap (fun s => s.current_request.map
          (fun r => { r with completion_time := some (pyOr r.completion_time e.clock) }))
    ∧ { req with completion_time := some ct } ∈ e.drain_remaining.2
    ∧ e.drain_remaining.1.metrics
      = e.drain_remaining.2.foldl MetricsCollector.record_completion e.metrics := by
  obtain ⟨h1, h2, h3⟩ := drainServers_spec e.clock e.lb.servers e.metrics
  have hs : e.drain_remaining.1.lb.servers
      = (drainServers e.clock e.metrics e.lb.servers).1 := rfl
  have hlog : e.drain_remaining.2
      = (drainServers e.clock e.metrics e.lb.servers).2.2 := rfl
  have hm : e.drain_remaining.1.metrics
      = (drainServers e.clock e.metrics e.lb.servers).2.1 := rfl
  refine ⟨by rw [hs, h1], by rw [hlog, h2], ?_, by rw [hm, h3, ← hlog]⟩
  rw [hlog, h2]
  apply List.mem_filterMap.mpr
  refine ⟨e.lb.servers.get ⟨k, hk⟩, List.get_mem e.lb.servers k hk, ?_⟩
  rw [hbusy, Option.map_some']
  have hpy : pyOr req.completion_time e.clock = ct := by
    rw [hct]
    simp [pyOr, hct0]
  rw [hpy]

/-- Witness for C1 at the concrete end-of-run state `engDrain`. -/
theorem C1_drain_amended_witness :
    engDrain.drain_remaining.1.lb.servers
      = engDrain.lb.servers.map (fun s => { s with current_request := none })
    ∧ engDrain.drain_remaining.2
      = engDrain.lb.servers.filterMap (fun s => s.current_request.map
          (fun r => { r with completion_time := some (pyOr r.completion_time engDrain.clock) }))
    ∧ { request_id := 9, arrival_time := 0, service_time := 9, timeout := none
        start_service_time := some 1
        completion_time := some 10 : ClientRequest } ∈ engDrain.drain_remaining.2
    ∧ engDrain.drain_remaining.1.metrics
      = engDrain.drain_remaining.2.foldl MetricsCollector.record_completion
          engDrain.metrics :=
  C1_drain_amended engDrain 0 (by decide)
    { request_id := 9, arrival_time := 0, service_time := 9, timeout := none
      start_service_time := some 1, completion_time := some 10 }
    10 (by decide) (by decide) (by decide)

/-! ### Claim C10 -/

theorem createRequests_ids (args : List (Time × Time × Option Time)) :
    ∀ c : Nat,
      ((createRequests c args).2.map (fun r => r.request_id))
        = List.range' (c + 1) args.length
      ∧ (createRequests c args).1 = c + args.length := by
  induction args with
  | nil =>
    intro c
    simp [createRequests]
  | cons a rest ih =>
    intro c
    obtain ⟨h1, h2⟩ := ih (c + 1)
    constructor
    · simp only [createRequests, mkClientRequest, List.map_cons, List.length_cons,
        List.range'_succ]
      rw [h1]
    · simp only [createRequests, mkClientRequest, List.length_cons]
      rw [h2]
      omega

theorem init_id_counter (c n : Nat) (ar sr sd dt : Time) (alg : String)
    (tmo : Option Time) (e : SimulationEngine)
    (h : SimulationEngine.init c n ar sr sd dt alg tmo = .ok e) :
    e.id_counter = c := by
  unfold SimulationEngine.init at h
  unfold LoadBalancer.init at h
  by_cases halg : alg ∈ LoadBalancer.ALGORITHMS
  · simp only [halg, if_true] at h
    cases h
    rfl
  · simp [halg] at h

theorem makeArrivals_id_counter (services : List Time) :
    ∀ (e e' : SimulationEngine), e.makeArrivals services = some e' →
      e'.id_counter = e.id_counter + services.length := by
  induction services with
  | nil =>
    intro e e' h
    simp only [SimulationEngine.makeArrivals, Option.some_inj] at h
    rw [← h]
    simp
  | cons st rest ih =>
    intro e e' h
    simp only [SimulationEngine.makeArrivals] at h
    rcases hd : e.lb.dispatch (mkClientRequest e.id_counter e.clock st e.request_timeout).2 with
      msg | lb1
    · rw [hd] at h
      cases h
    · rw [hd] at h
      have := ih _ _ h
      simp only [mkClientRequest] at this
      rw [this]
      simp only [List.length_cons]
      omega

theorem stepTick_id_counter (e : SimulationEngine) (sv : List Time)
    (e1 : SimulationEngine) (log : List ClientRequest)
    (h : e.stepTick sv = some (e1, log)) :
    e1.id_counter = e.id_counter + sv.length := by
  unfold SimulationEngine.stepTick at h
  dsimp only at h
  split at h
  · cases h
  · next ea hma =>
    have hea := makeArrivals_id_counter sv _ _ hma
    split at h
    · cases h
    · next servers2 m2 lg htp =>
      simp only [Option.some_inj, Prod.mk.injEq] at h
      obtain ⟨he1, _⟩ := h
      rw [← he1]
      simpa using hea

theorem runTicks_id_counter (schedule : List (List Time)) :
    ∀ (e e2 : SimulationEngine) (log : List ClientRequest),
      e.runTicks schedule = some (e2, log) →
      e2.id_counter = e.id_counter + totalArrivals schedule := by
  induction schedule with
  | nil =>
    intro e e2 log h
    simp only [SimulationEngine.runTicks, Option.some_inj, Prod.mk.injEq] at h
    rw [← h.1]
    simp [totalArrivals]
  | cons sv rest ih =>
    intro e e2 log h
    simp only [SimulationEngine.runTicks] at h
    rcases hst : e.stepTick sv with _ | p1
    · rw [hst] at h
      cases h
    · rw [hst] at h
      rcases p1 with ⟨ea, log1⟩
      rcases hrt : ea.runTicks rest with _ | p2
      · simp only [hrt] at h
        cases h
      · simp only [hrt] at h
        rcases p2 with ⟨eb, log2⟩
        simp only [Option.some_inj, Prod.mk.injEq] at h
        obtain ⟨he2, _⟩ := h
        rw [← he2]
        have h1 := stepTick_id_counter e sv ea log1 hst
        have h2 := ih ea eb log2 hrt
        rw [h2, h1]
        simp only [totalArrivals, List.map_cons, List.sum_cons]
        omega

theorem run_id_counter (e : SimulationEngine) (schedule : List (List Time))
    (e' : SimulationEngine) (log : List ClientRequest)
    (h : e.run schedule = some (e', log)) :
    e'.id_counter = e.id_counter + totalArrivals schedule := by
  unfold SimulationEngine.run at h
  rcases hrt : e.runTicks schedule with _ | p
  · rw [hrt] at h
    cases h
  · rw [hrt] at h
    rcases p with ⟨e1, log1⟩
    simp only [Option.some_inj, Prod.mk.injEq] at h
    obtain ⟨he', _⟩ := h
    have hdr : e1.drain_remaining.1.id_counter = e1.id_counter := rfl
    rw [← he', hdr]
    exact runTicks_id_counter schedule e e1 log1 hrt

/-- Claim C10: request identifiers come from the single process-global
counter threaded through every creation — along any creation sequence the
identifiers are `c+1, c+2, ...` (strictly increasing; the first request
ever created, from counter `0`, has identifier 1); engine construction
passes the incoming counter through unchanged, a run advances it by
exactly the number of requests created, and each creation returns
identifier `counter + 1` — so a second engine's first request continues
from the previous run's last identifier rather than restarting at 1. -/
theorem C10_global_id_counter (c : Nat) (args : List (Time × Time × Option Time)) :
    ((createRequests c args).2.map (fun r => r.request_id))
      = List.range' (c + 1) args.length
    ∧ ((createRequests c args).2.map (fun r => r.request_id)).Pairwise (· < ·)
    ∧ (createRequests c args).1 = c + args.length
    ∧ (args ≠ [] →
        ((createRequests 0 args).2.map (fun r => r.request_id)).head? = some 1)
    ∧ (∀ (n : Nat) (ar sr sd dt : Time) (alg : String) (tmo : Option Time)
        (e : SimulationEngine),
        SimulationEngine.init c n ar sr sd dt alg tmo = .ok e → e.id_counter = c)
    ∧ (∀ (e e' : SimulationEngine) (schedule : List (List Time))
        (log : List ClientRequest),
        e.run schedule = some (e', log) →
        e'.id_counter = e.id_counter + totalArrivals schedule)
    ∧ (∀ (w : Nat) (x y : Time) (z : Option Time),
        (mkClientRequest w x y z).2.request_id = w + 1
        ∧ (mkClientRequest w x y z).1 = w + 1) := by
  obtain ⟨h1, h2⟩ := createRequests_ids args c
  refine ⟨h1, ?_, h2, ?_, ?_, ?_, ?_⟩
  · rw [h1]
    exact List.pairwise_lt_range' _ _ 1
  · intro hne
    obtain ⟨h1', _⟩ := createRequests_ids args 0
    rw [h1']
    rcases args with _ | ⟨a, rest⟩
    · exact absurd rfl hne
    · simp [List.range'_succ]
  · intro n ar sr sd dt alg tmo e h
    exact init_id_counter c n ar sr sd dt alg tmo e h
  · intro e e' schedule log h
    exact run_id_counter e schedule e' log h
  · intro w x y z
    exact ⟨rfl, rfl⟩

/-- Witness for C10: concrete creation sequence, a concrete engine and a
concrete two-tick run whose final counter the next creation continues
from. -/
theorem C10_global_id_counter_witness :
    ((createRequests 0 argsC10).2.map (fun r => r.request_id))
      = List.range' (0 + 1) argsC10.length
    ∧ ((createRequests 0 argsC10).2.map (fun r => r.request_id)).Pairwise (· < ·)
    ∧ (createRequests 0 argsC10).1 = 0 + argsC10.length
    ∧ ((createRequests 0 argsC10).2.map (fun r => r.request_id)).head? = some 1
    ∧ engC10.id_counter = 0
    ∧ engC10fin.id_counter = engC10.id_counter + totalArrivals schedC10
    ∧ ((mkClientRequest engC10fin.id_counter 0 1 none).2.request_id
        = engC10fin.id_counter + 1
      ∧ (mkClientRequest engC10fin.id_counter 0 1 none).1
        = engC10fin.id_counter + 1) :=
  have h := C10_global_id_counter 0 argsC10
  ⟨h.1, h.2.1, h.2.2.1,
   h.2.2.2.1 (by decide),
   h.2.2.2.2.1 1 2 1 3 1 "round_robin" none engC10 (by
     norm_num [SimulationEngine.init, LoadBalancer.init, LoadBalancer.ALGORITHMS,
       engC10, mkIdleSrv, MetricsCollector.init, List.range_succ]),
   h.2.2.2.2.2.1 engC10 engC10fin schedC10 logC10 (by
     norm_num [SimulationEngine.run, SimulationEngine.runTicks, SimulationEngine.stepTick,
       SimulationEngine.makeArrivals, SimulationEngine.drain_remaining, drainServers,
       dropPhase, tickPhase, LoadBalancer.dispatch, LoadBalancer.round_robin,
       ServerNode.tick, ServerNode.startNext, ServerNode.drop_timed_out,
       ServerNode.enqueue, ClientRequest.is_timed_out,
       MetricsCollector.record_completion, ClientRequest.response_time,
       mkClientRequest, listModify, pyOr, engC10, engC10fin, logC10, schedC10,
       mkIdleSrv, MetricsCollector.init]),
   h.2.2.2.2.2.2 engC10fin.id_counter 0 1 none⟩

/-! ### Claim C4 -/

theorem waitingOK_mono {c c' : Time} (h : c ≤ c') {r : ClientRequest} :
    WaitingOK c r → WaitingOK c' r := by
  rintro ⟨h1, h2, h3, h4, h5⟩
  exact ⟨h1, h2, h3, le_trans h4 h, h5⟩

theorem inServiceOK_mono {c c' : Time} (h : c ≤ c') {r : ClientRequest} :
    InServiceOK c r → InServiceOK c' r := by
  rintro ⟨st, h1, h2, h3, h4, h5, h6⟩
  exact ⟨st, h1, h2, h3, h4, le_trans h5 h, h6⟩

theorem serverOK_mono {c c' : Time} (h : c ≤ c') {s : ServerNode} :
    ServerOK c s → ServerOK c' s := by
  rintro ⟨hq, hc⟩
  exact ⟨fun r hr => waitingOK_mono h (hq r hr), fun r hr => inServiceOK_mono h (hc r hr)⟩

theorem enqueue_ServerOK {c : Time} {s : ServerNode} {r : ClientRequest}
    (hs : ServerOK c s) (hr : WaitingOK c r) : ServerOK c (s.enqueue r) := by
  obtain ⟨hq, hc⟩ := hs
  refine ⟨?_, hc⟩
  intro x hx
  rcases List.mem_append.mp hx with hx | hx
  · exact hq x hx
  · rw [List.mem_singleton.mp hx]
    exact hr

theorem listModify_forall {α : Type} (P : α → Prop) (f : α → α) :
    ∀ (i : Nat) (l : List α), (∀ x ∈ l, P x) → (∀ x, P x → P (f x)) →
      ∀ x ∈ listModify f i l, P x := by
  intro i l
  induction l generalizing i with
  | nil =>
    intro _ _ x hx
    simp [listModify] at hx
  | cons y ys ih =>
    intro hl hf x hx
    cases i with
    | zero =>
      rcases List.mem_cons.mp hx with hx | hx
      · rw [hx]
        exact hf y (hl y (List.mem_cons_self _ _))
      · exact hl x (List.mem_cons_of_mem _ hx)
    | succ n =>
      rcases List.mem_cons.mp hx with hx | hx
      · rw [hx]
        exact hl y (List.mem_cons_self _ _)
      · exact ih n (fun z hz => hl z (List.mem_cons_of_mem _ hz)) hf x hx

theorem dispatch_servers (lb : LoadBalancer) (req : ClientRequest)
    (lb' : LoadBalancer) (i : Nat) (h : lb.dispatch req = .ok (lb', i)) :
    ∃ j, lb'.servers = listModify (fun s => s.enqueue req) j lb.servers := by
  unfold LoadBalancer.dispatch at h
  by_cases hempty : lb.servers.isEmpty
  · simp [hempty] at h
  · simp only [hempty, Bool.false_eq_true, if_false, Option.some_inj] at h
    by_cases halg : lb.algorithm = "round_robin"
    · simp only [halg, if_true, LoadBalancer.round_robin] at h
      cases h
      exact ⟨_, rfl⟩
    · simp only [halg, if_false] at h
      rcases hll : lb.least_loaded with _ | k <;> rw [hll] at h <;> cases h
      · exact ⟨_, rfl⟩
      · exact ⟨_, rfl⟩

theorem makeArrivals_EngineOK (services : List Time) :
    ∀ (e e' : SimulationEngine), (∀ x ∈ services, 0 ≤ x) → EngineOK e →
      e.makeArrivals services = some e' →
      EngineOK e' ∧ e'.clock = e.clock ∧ e'.dt = e.dt := by
  induction services with
  | nil =>
    intro e e' _ hok h
    simp only [SimulationEngine.makeArrivals, Option.some_inj] at h
    rw [← h]
    exact ⟨hok, rfl, rfl⟩
  | cons st rest ih =>
    intro e e' hsv hok h
    simp only [SimulationEngine.makeArrivals] at h
    rcases hd : e.lb.dispatch (mkClientRequest e.id_counter e.clock st e.request_timeout).2 with
      msg | p
    · rw [hd] at h
      cases h
    · rw [hd] at h
      rcases p with ⟨lb1, k⟩
      obtain ⟨j, hlb1⟩ := dispatch_servers _ _ _ _ hd
      obtain ⟨hclk, hsrv⟩ := hok
      have hreq : WaitingOK e.clock
          (mkClientRequest e.id_counter e.clock st e.request_timeout).2 := by
        refine ⟨rfl, rfl, hclk, le_refl _, hsv st (List.mem_cons_self _ _)⟩
      have hmid : EngineOK { e with
          id_counter := (mkClientRequest e.id_counter e.clock st e.request_timeout).1
          lb := lb1 } := by
        refine ⟨hclk, ?_⟩
        intro s hs
        simp only at hs
        rw [hlb1] at hs
        exact listModify_forall (ServerOK e.clock) (fun s => s.enqueue _) j
          e.lb.servers hsrv
          (fun s hsok => enqueue_ServerOK hsok hreq) s hs
      obtain ⟨hok', hclk', hdt'⟩ := ih _ _
        (fun x hx => hsv x (List.mem_cons_of_mem _ hx)) hmid h
      exact ⟨hok', hclk', hdt'⟩

theorem drop_timed_out_ServerOK (c t : Time) (s : ServerNode)
    (h : ServerOK c s) : ServerOK c (s.drop_timed_out t).1 := by
  obtain ⟨hq, hc⟩ := h
  refine ⟨?_, hc⟩
  intro r hr
  exact hq r (List.mem_of_mem_filter hr)

theorem dropPhase_ServerOK (c t : Time) (servers : List ServerNode) :
    ∀ m : MetricsCollector, (∀ s ∈ servers, ServerOK c s) →
      ∀ s' ∈ (dropPhase t m servers).1, ServerOK c s' := by
  induction servers with
  | nil =>
    intro m _ s' hs'
    simp [dropPhase] at hs'
  | cons s rest ih =>
    intro m hl s' hs'
    simp only [dropPhase] at hs'
    rcases List.mem_cons.mp hs' with hs' | hs'
    · rw [hs']
      exact drop_timed_out_ServerOK c t s (hl s (List.mem_cons_self _ _))
    · exact ih _ (fun z hz => hl z (List.mem_cons_of_mem _ hz)) s' hs'

theorem startNext_ServerOK (c : Time) (s : ServerNode)
    (h : ServerOK c s) : ServerOK c (s.startNext c) := by
  obtain ⟨hq, hc⟩ := h
  unfold ServerNode.startNext
  rcases hcur : s.current_request with _ | req
  · rcases hque : s.queue with _ | ⟨r, rest⟩
    · exact ⟨hq, hc⟩
    · obtain ⟨hw1, hw2, hw3, hw4, hw5⟩ := hq r (by rw [hque]; exact List.mem_cons_self _ _)
      constructor
      · intro x hx
        exact hq x (by rw [hque]; exact List.mem_cons_of_mem _ hx)
      · intro x hx
        rw [Option.mem_def, Option.some_inj] at hx
        rw [← hx]
        exact ⟨c, rfl, rfl, hw3, hw4, le_refl c, hw5⟩
  · exact ⟨hq, hc⟩

theorem tick_ServerOK (c : Time) (s s' : ServerNode) (done : List ClientRequest)
    (hok : ServerOK c s) (h : s.tick c = some (s', done)) :
    ServerOK c s' ∧ ∀ r ∈ done, CompletedOK r := by
  obtain ⟨hq, hc⟩ := hok
  unfold ServerNode.tick at h
  rcases hcur : s.current_request with _ | req
  · rw [hcur] at h
    dsimp only at h
    simp only [Option.some_inj, Prod.mk.injEq] at h
    obtain ⟨hs', hdone⟩ := h
    rw [← hs', ← hdone]
    exact ⟨startNext_ServerOK c s ⟨hq, hc⟩, by simp⟩
  · rw [hcur] at h
    dsimp only at h
    obtain ⟨st, hst, hct, har0, har, hstc, hsv⟩ :=
      hc req (by rw [hcur]; exact rfl)
    rw [hct] at h
    dsimp only at h
    by_cases hdue : st + req.service_time ≤ c
    · simp only [hdue, if_true, Option.some_inj, Prod.mk.injEq] at h
      obtain ⟨hs', hdone⟩ := h
      constructor
      · rw [← hs']
        apply startNext_ServerOK
        exact ⟨hq, by intro x hx; simp at hx⟩
      · intro r hr
        rw [← hdone] at hr
        rw [List.mem_singleton.mp hr]
        exact ⟨st, c, hst, rfl, hsv, har, hdue⟩
    · simp only [hdue, if_false, Option.some_inj, Prod.mk.injEq] at h
      obtain ⟨hs', hdone⟩ := h
      rw [← hs', ← hdone]
      exact ⟨⟨hq, hc⟩, by simp⟩

theorem tickPhase_ok (c : Time) (servers : List ServerNode) :
    ∀ (m : MetricsCollector) (servers' : List ServerNode)
      (m' : MetricsCollector) (log : List ClientRequest),
      (∀ s ∈ servers, ServerOK c s) →
      tickPhase c m servers = some (servers', m', log) →
      (∀ s' ∈ servers', ServerOK c s') ∧ ∀ r ∈ log, CompletedOK r := by
  induction servers with
  | nil =>
    intro m servers' m' log _ h
    simp only [tickPhase, Option.some_inj, Prod.mk.injEq] at h
    obtain ⟨h1, _, h3⟩ := h
    rw [← h1, ← h3]
    exact ⟨by simp, by simp⟩
  | cons s rest ih =>
    intro m servers' m' log hl h
    simp only [tickPhase] at h
    rcases htk : s.tick c with _ | p1
    · rw [htk] at h
      cases h
    · rw [htk] at h
      rcases p1 with ⟨s1, done⟩
      obtain ⟨hs1, hdone⟩ := tick_ServerOK c s s1 done
        (hl s (List.mem_cons_self _ _)) htk
      rcases htp : tickPhase c (done.foldl MetricsCollector.record_completion m) rest with
        _ | p2
      · simp only [htp] at h
        cases h
      · simp only [htp] at h
        rcases p2 with ⟨rest1, m2, lg⟩
        obtain ⟨hrest1, hlg⟩ := ih _ _ _ _
          (fun z hz => hl z (List.mem_cons_of_mem _ hz)) htp
        simp only [Option.some_inj, Prod.mk.injEq] at h
        obtain ⟨h1, _, h3⟩ := h
        constructor
        · rw [← h1]
          intro s' hs'
          rcases List.mem_cons.mp hs' with hs' | hs'
          · rw [hs']; exact hs1
          · exact hrest1 s' hs'
        · rw [← h3]
          intro r hr
          rcases List.mem_append.mp hr with hr | hr
          · exact hdone r hr
          · exact hlg r hr

theorem stepTick_EngineOK (e : SimulationEngine) (sv : List Time)
    (e1 : SimulationEngine) (log : List ClientRequest)
    (hdt : 0 ≤ e.dt) (hsv : ∀ x ∈ sv, 0 ≤ x) (hok : EngineOK e)
    (h : e.stepTick sv = some (e1, log)) :
    EngineOK e1 ∧ (∀ r ∈ log, CompletedOK r) ∧ e1.dt = e.dt := by
  unfold SimulationEngine.stepTick at h
  dsimp only at h
  have hok0 : EngineOK { e with clock := e.clock + e.dt } := by
    obtain ⟨hclk, hsrv⟩ := hok
    refine ⟨?_, ?_⟩
    · show (0 : ℚ) ≤ e.clock + e.dt
      linarith
    · intro s hs
      exact serverOK_mono (show e.clock ≤ e.clock + e.dt by linarith) (hsrv s hs)
  split at h
  · cases h
  · next ea hma =>
    obtain ⟨hea, heclk, hedt⟩ := makeArrivals_EngineOK sv _ _ hsv hok0 hma
    obtain ⟨heaclk, heasrv⟩ := hea
    split at h
    · cases h
    · next servers2 m2 lg htp =>
      simp only [Option.some_inj, Prod.mk.injEq] at h
      obtain ⟨he1, hlog⟩ := h
      have hdropped : ∀ s' ∈ (dropPhase ea.clock ea.metrics ea.lb.servers).1,
          ServerOK ea.clock s' :=
        dropPhase_ServerOK ea.clock ea.clock ea.lb.servers ea.metrics heasrv
      obtain ⟨hsrv2, hlg2⟩ := tickPhase_ok ea.clock _ _ _ _ _ hdropped htp
      refine ⟨?_, ?_, ?_⟩
      · rw [← he1]
        exact ⟨heaclk, hsrv2⟩
      · rw [← hlog]
        exact hlg2
      · rw [← he1]
        exact hedt

theorem runTicks_EngineOK (schedule : List (List Time)) :
    ∀ (e e2 : SimulationEngine) (log : List ClientRequest),
      0 ≤ e.dt → (∀ l ∈ schedule, ∀ x ∈ l, 0 ≤ x) → EngineOK e →
      e.runTicks schedule = some (e2, log) →
      EngineOK e2 ∧ (∀ r ∈ log, CompletedOK r) ∧ e2.dt = e.dt := by
  induction schedule with
  | nil =>
    intro e e2 log _ _ hok h
    simp only [SimulationEngine.runTicks, Option.some_inj, Prod.mk.injEq] at h
    obtain ⟨h1, h2⟩ := h
    rw [← h1, ← h2]
    exact ⟨hok, by simp, rfl⟩
  | cons sv rest ih =>
    intro e e2 log hdt hs hok h
    simp only [SimulationEngine.runTicks] at h
    rcases hst : e.stepTick sv with _ | p1
    · rw [hst] at h
      cases h
    · rw [hst] at h
      rcases p1 with ⟨ea, log1⟩
      obtain ⟨hea, hlog1, hdtea⟩ := stepTick_EngineOK e sv ea log1 hdt
        (hs sv (List.mem_cons_self _ _)) hok hst
      rcases hrt : ea.runTicks rest with _ | p2
      · simp only [hrt] at h
        cases h
      · simp only [hrt] at h
        rcases p2 with ⟨eb, log2⟩
        obtain ⟨heb, hlog2, hdteb⟩ := ih ea eb log2 (hdtea ▸ hdt)
          (fun l hl => hs l (List.mem_cons_of_mem _ hl)) hea hrt
        simp only [Option.some_inj, Prod.mk.injEq] at h
        obtain ⟨h1, h2⟩ := h
        refine ⟨h1 ▸ heb, ?_, by rw [← h1, hdteb, hdtea]⟩
        rw [← h2]
        intro r hr
        rcases List.mem_append.mp hr with hr | hr
        · exact hlog1 r hr
        · exact hlog2 r hr

theorem drain_CompletedOK (e : SimulationEngine) (hok : EngineOK e) :
    ∀ r ∈ e.drain_remaining.2, CompletedOK r := by
  obtain ⟨hclk, hsrv⟩ := hok
  obtain ⟨_, h2, _⟩ := drainServers_spec e.clock e.lb.servers e.metrics
  intro r hr
  have hr' : r ∈ e.lb.servers.filterMap (fun s => s.current_request.map
      (fun q => { q with completion_time := some (pyOr q.completion_time e.clock) })) := by
    rw [← h2]
    exact hr
  obtain ⟨s, hs, hmap⟩ := List.mem_filterMap.mp hr'
  rcases hcur : s.current_request with _ | req
  · rw [hcur] at hmap
    simp at hmap
  · rw [hcur] at hmap
    simp only [Option.map_some', Option.some_inj] at hmap
    obtain ⟨st, hst, hct, har0, har, hstc, hsv⟩ :=
      (hsrv s hs).2 req (by rw [hcur]; rfl)
    rw [← hmap]
    by_cases h0 : st + req.service_time = 0
    · refine ⟨st, e.clock, hst, ?_, hsv, har, ?_⟩
      · rw [hct]
        simp [pyOr, h0]
      · rw [h0]
        exact hclk
    · refine ⟨st, st + req.service_time, hst, ?_, hsv, har, le_refl _⟩
      rw [hct]
      simp [pyOr, h0]

theorem init_EngineOK (c n : Nat) (ar sr sd dtv : Time) (alg : String)
    (tmo : Option Time) (e0 : SimulationEngine)
    (h : SimulationEngine.init c n ar sr sd dtv alg tmo = .ok e0) :
    EngineOK e0 ∧ e0.dt = dtv := by
  unfold SimulationEngine.init LoadBalancer.init at h
  by_cases halg : alg ∈ LoadBalancer.ALGORITHMS
  · simp only [halg, if_true] at h
    cases h
    refine ⟨⟨le_refl 0, ?_⟩, rfl⟩
    intro s hs
    simp only [List.mem_map] at hs
    obtain ⟨i, _, hi⟩ := hs
    rw [← hi]
    constructor
    · intro r hr
      simp at hr
    · intro r hr
      simp at hr
  · simp [halg] at h

/-- Claim C4: for every request recorded as completed during an engine run
built by `init` (drain-finalized requests included), provided the
time-step and the sampled service durations are non-negative:
arrival ≤ start-of-service ≤ completion, and the response time
(completion − arrival) is at least the service duration. -/
theorem C4_completed_requests_invariant
    (c num : Nat) (ar sr sd dtv : Time) (alg : String) (tmo : Option Time)
    (e0 : SimulationEngine)
    (hinit : SimulationEngine.init c num ar sr sd dtv alg tmo = .ok e0)
    (hdt : 0 ≤ dtv)
    (schedule : List (List Time))
    (hs : ∀ l ∈ schedule, ∀ x ∈ l, 0 ≤ x)
    (efin : SimulationEngine) (log : List ClientRequest)
    (hrun : e0.run schedule = some (efin, log)) :
    ∀ r ∈ log, ∃ st ct, r.start_service_time = some st
      ∧ r.completion_time = some ct
      ∧ r.arrival_time ≤ st ∧ st ≤ ct
      ∧ r.service_time ≤ ct - r.arrival_time := by
  obtain ⟨hok0, hdt0⟩ := init_EngineOK c num ar sr sd dtv alg tmo e0 hinit
  unfold SimulationEngine.run at hrun
  rcases hrt : e0.runTicks schedule with _ | p
  · rw [hrt] at hrun
    cases hrun
  · rw [hrt] at hrun
    rcases p with ⟨e1, log1⟩
    dsimp only at hrun
    simp only [Option.some_inj, Prod.mk.injEq] at hrun
    obtain ⟨hefin, hlog⟩ := hrun
    obtain ⟨hok1, hlog1, _⟩ := runTicks_EngineOK schedule e0 e1 log1
      (by rw [hdt0]; exact hdt) hs hok0 hrt
    have hdrain := drain_CompletedOK e1 hok1
    intro r hr
    rw [← hlog] at hr
    have hcomp : CompletedOK r := by
      rcases List.mem_append.mp hr with hr | hr
      · exact hlog1 r hr
      · exact hdrain r hr
    obtain ⟨st, ct, h1, h2, h3, h4, h5⟩ := hcomp
    exact ⟨st, ct, h1, h2, h4, by linarith, by linarith⟩

/-- Witness for C4: the concrete two-tick run `engC10.run schedC10`, whose
log contains one request completed during the run (and whose drain keeps a
scheduled completion time past the final clock). -/
theorem C4_completed_requests_invariant_witness :
    SimulationEngine.init 0 1 2 1 3 1 "round_robin" none = .ok engC10
    ∧ (0 : ℚ) ≤ 1
    ∧ (∀ l ∈ schedC10, ∀ x ∈ l, 0 ≤ x)
    ∧ engC10.run schedC10 = some (engC10fin, logC10)
    ∧ (∀ r ∈ logC10, ∃ st ct, r.start_service_time = some st
        ∧ r.completion_time = some ct
        ∧ r.arrival_time ≤ st ∧ st ≤ ct
        ∧ r.service_time ≤ ct - r.arrival_time) := by
  have hinit : SimulationEngine.init 0 1 2 1 3 1 "round_robin" none = .ok engC10 := by
    norm_num [SimulationEngine.init, LoadBalancer.init, LoadBalancer.ALGORITHMS,
      engC10, mkIdleSrv, MetricsCollector.init, List.range_succ]
  have hrun : engC10.run schedC10 = some (engC10fin, logC10) := by
    norm_num [SimulationEngine.run, SimulationEngine.runTicks, SimulationEngine.stepTick,
      SimulationEngine.makeArrivals, SimulationEngine.drain_remaining, drainServers,
      dropPhase, tickPhase, LoadBalancer.dispatch, LoadBalancer.round_robin,
      ServerNode.tick, ServerNode.startNext, ServerNode.drop_timed_out,
      ServerNode.enqueue, ClientRequest.is_timed_out,
      MetricsCollector.record_completion, ClientRequest.response_time,
      mkClientRequest, listModify, pyOr, engC10, engC10fin, logC10, schedC10,
      mkIdleSrv, MetricsCollector.init]
  have hsv : ∀ l ∈ schedC10, ∀ x ∈ l, (0 : ℚ) ≤ x := by
    intro l hl x hx
    simp only [schedC10, List.mem_cons, List.not_mem_nil, or_false] at hl
    rcases hl with hl | hl <;> subst hl <;>
      simp only [List.mem_singleton] at hx <;> subst hx <;> norm_num
  exact ⟨hinit, by norm_num, hsv, hrun,
    C4_completed_requests_invariant 0 1 2 1 3 1 "round_robin" none engC10 hinit
      (by norm_num) schedC10 hsv engC10fin logC10 hrun⟩

end DataCenterSim
